import Mathlib

/-!
# benchviz — configuration rule engine and classification pipeline

Shallow embedding of the core of the `benchviz` repository: the declarative
rule store (`internal/pkg/config`), the classifier (`Object.MatchString`,
`Config.Find*`), the aggregator (`internal/pkg/organizer`), and the ruleset
synthesizer (`config.Generate`).

Modelling conventions:
* Go strings are modelled by `String`; rune-level operations are carried out
  on `String.toList` (`List Char`), which mirrors Go's rune iteration for the
  ASCII-heavy data handled here.
* A compiled `*regexp.Regexp` is modelled by its matching predicate `isMatch`
  (structure `Rex`); a `nil` regexp pointer is `Option.none`.
* `regexp.Compile` is not modelled concretely: definitions that compile
  patterns take an explicit `compile : String → Except String Rex` argument,
  and theorems quantify over it.  No claim under scrutiny depends on the
  regex language itself.
* Go maps used as unique-key indices are modelled by association lists with
  first-match lookup (`mapLookup`); the code rejects duplicate keys before
  insertion, so the semantics agree.
* `float64` metric values are modelled as exact rationals (`Rat`): the
  pipeline only copies values, it never computes with them.
* Fallible Go functions returning `(T, error)` become `Except String T`.
-/

namespace Benchviz

/-! ## Data model, rule store, classifier, aggregator and synthesizer -/


/-- A compiled regular expression, modelled by its matching predicate `isMatch`
(the behaviour of `(*regexp.Regexp).MatchString`). -/
structure Rex where
  isMatch : String → Bool

/-- `config.MetricName` (src/unnamed/part_002): a metric identifier string. -/
abbrev MetricName := String

/-- `config.MetricNsPerOp`. -/
def MetricNsPerOp : MetricName := "nsPerOp"

/-- `config.MetricAllocsPerOp`. -/
def MetricAllocsPerOp : MetricName := "allocsPerOp"

/-- `config.MetricBytesPerOp`. -/
def MetricBytesPerOp : MetricName := "bytesPerOp"

/-- `config.MetricMBPerS`. -/
def MetricMBPerS : MetricName := "MBytesPerS"

/-- `MetricName.IsValid` (src/unnamed/part_002). -/
def MetricName.IsValid (m : MetricName) : Bool :=
  m = MetricNsPerOp ∨ m = MetricAllocsPerOp ∨ m = MetricBytesPerOp ∨ m = MetricMBPerS

/-- `config.AllMetricNames`. -/
def AllMetricNames : List MetricName :=
  [MetricNsPerOp, MetricAllocsPerOp, MetricBytesPerOp, MetricMBPerS]

/-- `config.Metric`: a benchmark metric with display title and axis label. -/
structure Metric where
  ID : MetricName := ""
  Title : String := ""
  Axis : String := ""

instance : Inhabited Metric := ⟨{}⟩

/-- `config.Object` (src/unnamed/part_003): the base type for regexp-matched
configuration entries.  `Match`/`NotMatch` are the raw pattern strings;
`matchRex`/`notMatchRex` model the unexported compiled `match`/`notMatch`
regexp pointers (`none` = `nil`). -/
structure Object where
  ID : String := ""
  Title : String := ""
  Match : String := ""
  NotMatch : String := ""
  matchRex : Option Rex := none
  notMatchRex : Option Rex := none

instance : Inhabited Object := ⟨{}⟩

/-- `config.Function`, `config.Context` and `config.Version` all embed
`config.Object` and add nothing; they are modelled by `Object` itself. -/
abbrev Function := Object

/-- See `Function`. -/
abbrev Context := Object

/-- See `Function`. -/
abbrev Version := Object

/-- `Object.MatchString` (src/unnamed/part_003, lines 281-307): reports whether
`name` agrees with the positive regexp and not the negative one, returning the
object's ID on a match. -/
def Object.MatchString (o : Object) (name : String) : String × Bool :=
  if o.matchRex.isNone && o.notMatchRex.isNone then ("", false)
  else
    let matchOk := match o.matchRex with
      | some r => r.isMatch name
      | none => false
    let notMatchOk := match o.notMatchRex with
      | some r => r.isMatch name
      | none => false
    if matchOk && !notMatchOk then (o.ID, true)
    else if o.matchRex.isNone && !notMatchOk then (o.ID, true)
    else ("", false)

/-- `config.File`: a file-matching rule enriching benchmarks based on the
input file name.  `matchRex` models the unexported compiled `match` field. -/
structure File where
  ID : String := ""
  MatchFile : String := ""
  Contexts : List Context := []
  Versions : List Version := []
  matchRex : Option Rex := none

/-- `File.MatchString` (src/unnamed/part_003, lines 212-222). -/
def File.MatchString (f : File) (file : String) : String × Bool :=
  match f.matchRex with
  | none => ("", false)
  | some r => if r.isMatch file then (f.ID, true) else ("", false)

/-- `config.Includes`: ids of functions, versions, contexts and metrics
included in a category. -/
structure Includes where
  Functions : List String := []
  Versions : List String := []
  Contexts : List String := []
  Metrics : List MetricName := []

/-- `config.Category`. -/
structure Category where
  ID : String := ""
  Title : String := ""
  Includes : Includes := {}

/-- `config.Layout`. -/
structure Layout where
  Horizontal : Int := 0
  Vertical : Int := 0

/-- `config.Screenshot`. -/
structure Screenshot where
  Height : Int := 0
  Width : Int := 0
  Sleep : String := ""

/-- `config.Rendering` (chart rendering settings; carried through the loader
but never interpreted by the rule engine). -/
structure Rendering where
  Title : String := ""
  Theme : String := ""
  Layout : Layout := {}
  Chart : String := ""
  Legend : String := ""
  Scale : String := ""
  DualScale : Bool := false
  Orientation : String := ""
  Screenshot : Screenshot := {}

/-- First-match lookup in an association list; models a Go map whose keys the
validator keeps unique. -/
def mapLookup {α : Type} (k : String) : List (String × α) → Option α
  | [] => none
  | (k', v) :: rest => if k' = k then some v else mapLookup k rest

/-- `config.Config` (src/unnamed/part_003): the rule store.  The four
`*Index` fields model the unexported lookup maps; runtime-only fields that
never reach the rule engine (`IsJSON`, `Outputs`) are omitted. -/
structure Config where
  Name : String := ""
  IsStrict : Bool := false
  Environment : String := ""
  Render : Rendering := {}
  Metrics : List Metric := []
  Functions : List Function := []
  Contexts : List Context := []
  Versions : List Version := []
  Categories : List Category := []
  Files : List File := []
  functionIndex : List (String × Function) := []
  contextIndex : List (String × Context) := []
  versionIndex : List (String × Version) := []
  metricIndex : List (MetricName × Metric) := []

instance : Inhabited Config := ⟨{}⟩

/-- `Config.GetFunction`. -/
def Config.GetFunction (c : Config) (id : String) : Option Function :=
  mapLookup id c.functionIndex

/-- `Config.GetContext`. -/
def Config.GetContext (c : Config) (id : String) : Option Context :=
  mapLookup id c.contextIndex

/-- `Config.GetVersion`. -/
def Config.GetVersion (c : Config) (id : String) : Option Version :=
  mapLookup id c.versionIndex

/-- `Config.GetMetric`. -/
def Config.GetMetric (c : Config) (id : MetricName) : Option Metric :=
  mapLookup id c.metricIndex

/-- The shared loop shape of `Config.FindFunction` / `FindVersion` /
`FindContext` (src/unnamed/part_003, lines 74-93 and 113-121): first
matching rule in declaration order wins. -/
def findFirstMatch (objs : List Object) (name : String) : String × Bool :=
  match objs with
  | [] => ("", false)
  | o :: rest =>
    let p := o.MatchString name
    if p.2 then (p.1, true) else findFirstMatch rest name

/-- `Config.FindFunction` (src/unnamed/part_003, lines 74-82). -/
def Config.FindFunction (c : Config) (name : String) : String × Bool :=
  findFirstMatch c.Functions name

/-- `Config.FindVersion` (src/unnamed/part_003, lines 84-93). -/
def Config.FindVersion (c : Config) (name : String) : String × Bool :=
  findFirstMatch c.Versions name

/-- `Config.FindContext` (src/unnamed/part_003, lines 112-121). -/
def Config.FindContext (c : Config) (name : String) : String × Bool :=
  findFirstMatch c.Contexts name

/-- The shared loop shape of `Config.FindVersionFromFile` /
`FindContextFromFile` (src/unnamed/part_003, lines 96-110 and 124-138):
skip file rules whose file pattern does not match; inside a matching file
rule return the first nested rule that isMatch; when the nested scan of a
matching file rule finds nothing, fall through to the next file rule. -/
def findFromFiles (sel : File → List Object) (files : List File) (file : String) :
    String × Bool :=
  match files with
  | [] => ("", false)
  | f :: rest =>
    if (f.MatchString file).2 = false then findFromFiles sel rest file
    else
      match (sel f).findSome? (fun o =>
          let p := o.MatchString file
          if p.2 then some p.1 else none) with
      | some id => (id, true)
      | none => findFromFiles sel rest file

/-- `Config.FindVersionFromFile` (src/unnamed/part_003, lines 96-110). -/
def Config.FindVersionFromFile (c : Config) (file : String) : String × Bool :=
  findFromFiles (fun f => f.Versions) c.Files file

/-- `Config.FindContextFromFile` (src/unnamed/part_003, lines 124-138). -/
def Config.FindContextFromFile (c : Config) (file : String) : String × Bool :=
  findFromFiles (fun f => f.Contexts) c.Files file

/-- Title-casing pass of `titleize`: uppercase the first character of each
word (word boundaries per the spec's "ASCII word splitting"). -/
def titleCaseChars : List Char → Bool → List Char
  | [], _ => []
  | c :: rest, boundary =>
    if c = ' ' then c :: titleCaseChars rest true
    else (if boundary then c.toUpper else c) :: titleCaseChars rest false

/-- `titleize` (src/unnamed/part_003, lines 664-676): replace `_`/`-` by
spaces, then title-case each word. -/
def titleize (s : String) : String :=
  ⟨titleCaseChars (s.toList.map (fun c => if c = '_' ∨ c = '-' then ' ' else c)) true⟩

/-- The loop shared by `Config.validateFunctions` / `validateContexts` /
`validateVersions` (src/unnamed/part_003, lines 412-461; the three bodies are
identical up to the collection name): reject empty and duplicate ids,
auto-title empty titles, and build the id index.  Note that the titleized
copy goes into the index only; the collection slice is left untouched, as in
the source. -/
def validateObjectsLoop (kind : String) :
    Nat → List Object → List (String × Object) → Except String (List (String × Object))
  | _, [], idx => .ok idx
  | i, v :: rest, idx =>
    if v.ID = "" then
      .error ("invalid " ++ kind ++ ": empty ID found: " ++ kind ++ "[" ++ toString i ++ "]")
    else if (mapLookup v.ID idx).isSome then
      .error ("invalid " ++ kind ++ ": duplicate ID key found: " ++ v.ID)
    else
      let v' := if v.Title = "" then { v with Title := titleize v.ID } else v
      validateObjectsLoop kind (i + 1) rest (idx ++ [(v'.ID, v')])

/-- `Config.validateFunctions` (src/unnamed/part_003, lines 412-427). -/
def Config.validateFunctions (c : Config) : Except String Config :=
  (validateObjectsLoop "functions" 0 c.Functions []).map
    (fun idx => { c with functionIndex := idx })

/-- `Config.validateContexts` (src/unnamed/part_003, lines 429-444). -/
def Config.validateContexts (c : Config) : Except String Config :=
  (validateObjectsLoop "contexts" 0 c.Contexts []).map
    (fun idx => { c with contextIndex := idx })

/-- `Config.validateVersions` (src/unnamed/part_003, lines 446-461). -/
def Config.validateVersions (c : Config) : Except String Config :=
  (validateObjectsLoop "versions" 0 c.Versions []).map
    (fun idx => { c with versionIndex := idx })

/-- Loop of `Config.validateMetrics` (src/unnamed/part_003, lines 463-482):
like the object collections, with the additional `MetricName.IsValid`
membership test. -/
def validateMetricsLoop :
    Nat → List Metric → List (String × Metric) → Except String (List (String × Metric))
  | _, [], idx => .ok idx
  | i, v :: rest, idx =>
    if v.ID = "" then
      .error ("invalid metrics: empty ID found: metrics[" ++ toString i ++ "]")
    else if !(MetricName.IsValid v.ID) then
      .error ("invalid metrics: invalid metric ID: metrics[" ++ toString i ++ "]=" ++ v.ID)
    else
      let v' := if v.Title = "" then { v with Title := titleize v.ID } else v
      if (mapLookup v'.ID idx).isSome then
        .error ("invalid metrics: duplicate ID key found: " ++ v.ID)
      else
        validateMetricsLoop (i + 1) rest (idx ++ [(v'.ID, v')])

/-- `Config.validateMetrics` (src/unnamed/part_003, lines 463-482). -/
def Config.validateMetrics (c : Config) : Except String Config :=
  (validateMetricsLoop 0 c.Metrics []).map (fun idx => { c with metricIndex := idx })

/-- First id in `refs` that is absent from the index `idx`; models the
reference-checking loops of `Config.validateCategory`. -/
def firstMissingRef {α : Type} (idx : List (String × α)) : List String → Option String
  | [] => none
  | r :: rest => if (mapLookup r idx).isSome then firstMissingRef idx rest else some r

/-- Final stage of `Config.validateCategory`: the metric reference check and
the at-least-one-metric rule.  `includes` is the snapshot of the category's
include lists taken before any expansion, as in the source. -/
def validateCategoryMetrics (c : Config) (includes : Includes) (v : Category) :
    Except String Category :=
  match firstMissingRef c.metricIndex includes.Metrics with
  | some r =>
    .error ("invalid category: metric ID not found categories." ++ v.ID ++
      ".includes.metrics=" ++ r)
  | none =>
    if includes.Metrics.length = 0 then
      .error ("invalid category: at least 1 metric must be included in a category. category." ++
        v.ID ++ ".metrics")
    else .ok v

/-- Default-inclusion expansion for functions (src/unnamed/part_003,
lines 514-518): when the declared functions list is empty, append all
defined function ids in declaration order. -/
def expandFunctionsLayer (c : Config) (includes : Includes) (v : Category) : Category :=
  if includes.Functions.length = 0 then
    { v with Includes :=
      { v.Includes with Functions := v.Includes.Functions ++ c.Functions.map Object.ID } }
  else v

/-- Default-inclusion expansion for contexts (src/unnamed/part_003,
lines 527-531). -/
def expandContextsLayer (c : Config) (includes : Includes) (v : Category) : Category :=
  if includes.Contexts.length = 0 then
    { v with Includes :=
      { v.Includes with Contexts := v.Includes.Contexts ++ c.Contexts.map Object.ID } }
  else v

/-- Default-inclusion expansion for versions (src/unnamed/part_003,
lines 540-544). -/
def expandVersionsLayer (c : Config) (includes : Includes) (v : Category) : Category :=
  if includes.Versions.length = 0 then
    { v with Includes :=
      { v.Includes with Versions := v.Includes.Versions ++ c.Versions.map Object.ID } }
  else v

/-- Version stage of `Config.validateCategory`: reference check against the
version index, then default-inclusion expansion of an empty versions list. -/
def validateCategoryVersions (c : Config) (includes : Includes) (v : Category) :
    Except String Category :=
  match firstMissingRef c.versionIndex includes.Versions with
  | some r =>
    .error ("invalid category: version ID not found categories." ++ v.ID ++
      ".includes.versions=" ++ r)
  | none => validateCategoryMetrics c includes (expandVersionsLayer c includes v)

/-- Context stage of `Config.validateCategory`. -/
def validateCategoryContexts (c : Config) (includes : Includes) (v : Category) :
    Except String Category :=
  match firstMissingRef c.contextIndex includes.Contexts with
  | some r =>
    .error ("invalid category: context ID not found categories." ++ v.ID ++
      ".includes.contexts=" ++ r)
  | none => validateCategoryVersions c includes (expandContextsLayer c includes v)

/-- Function stage of `Config.validateCategory`. -/
def validateCategoryFunctions (c : Config) (includes : Includes) (v : Category) :
    Except String Category :=
  match firstMissingRef c.functionIndex includes.Functions with
  | some r =>
    .error ("invalid category: function ID not found categories." ++ v.ID ++
      ".includes.functions=" ++ r)
  | none => validateCategoryContexts c includes (expandFunctionsLayer c includes v)

/-- The auto-titling step shared by the validators: an empty title is
replaced by the titleized id. -/
def titledCategory (v : Category) : Category :=
  if v.Title = "" then { v with Title := titleize v.ID } else v

/-- `Config.validateCategory` (src/unnamed/part_003, lines 497-558): reject
an empty id, auto-title, check every included function/context/version/metric
id against the already-built indices, expand an empty functions/contexts/
versions list to all defined ids of that kind (in declaration order), and
reject a category with zero included metrics.  Note there is no duplicate
check on category ids.  The four per-kind passes (the stage functions
above) run in source order and all check against the include lists as
declared (`includes`), before any expansion. -/
def Config.validateCategory (c : Config) (v : Category) (i : Nat) : Except String Category :=
  if v.ID = "" then
    .error ("invalid categories: empty ID found: categories[" ++ toString i ++ "]")
  else
    validateCategoryFunctions c (titledCategory v).Includes (titledCategory v)

/-- Loop of `Config.validateCategories` (src/unnamed/part_003, lines 484-495). -/
def Config.validateCategoriesLoop (c : Config) : Nat → List Category → Except String (List Category)
  | _, [] => .ok []
  | i, v :: rest =>
    match c.validateCategory v i with
    | .error e => .error e
    | .ok v' =>
      match Config.validateCategoriesLoop c (i + 1) rest with
      | .error e => .error e
      | .ok rest' => .ok (v' :: rest')

/-- `Config.validateCategories` (src/unnamed/part_003, lines 484-495). -/
def Config.validateCategories (c : Config) : Except String Config :=
  (Config.validateCategoriesLoop c 0 c.Categories).map
    (fun cats => { c with Categories := cats })

/-- One branch of `compileRex`: an empty pattern string compiles to a `nil`
regexp. -/
def compilePattern (compile : String → Except String Rex) (pat : String) :
    Except String (Option Rex) :=
  if pat = "" then .ok none
  else
    match compile pat with
    | .error e => .error e
    | .ok r => .ok (some r)

/-- `compileRex` (src/unnamed/part_003, lines 643-658). -/
def compileRex (compile : String → Except String Rex) (o : Object) :
    Except String (Option Rex × Option Rex) :=
  match compilePattern compile o.Match with
  | .error e => .error e
  | .ok m =>
    match compilePattern compile o.NotMatch with
    | .error e => .error e
    | .ok nm => .ok (m, nm)

/-- The three identical regexp-compiling loops over functions/contexts/
versions inside `Config.validateRegexps` (src/unnamed/part_003,
lines 562-590). -/
def compileObjects (compile : String → Except String Rex) (kind : String) :
    Nat → List Object → Except String (List Object)
  | _, [] => .ok []
  | i, o :: rest =>
    match compileRex compile o with
    | .error e =>
      .error ("invalid regexp[" ++ kind ++ " " ++ toString i ++ " - " ++ o.ID ++ "]: " ++ e)
    | .ok p =>
      match compileObjects compile kind (i + 1) rest with
      | .error e => .error e
      | .ok rest' => .ok ({ o with matchRex := p.1, notMatchRex := p.2 } :: rest')

/-- The nested context/version loops of the file-rule pass of
`Config.validateRegexps` (src/unnamed/part_003, lines 607-635): each nested
id must exist in the corresponding index, then its patterns are compiled. -/
def compileNested (compile : String → Except String Rex) (idx : List (String × Object))
    (what : String) : List Object → Except String (List Object)
  | [] => .ok []
  | d :: rest =>
    if (mapLookup d.ID idx).isSome = false then
      .error ("invalid file: " ++ what ++ " ID not found: " ++ d.ID)
    else
      match compileRex compile d with
      | .error e => .error ("invalid regexp[files " ++ what ++ " - " ++ d.ID ++ "]: " ++ e)
      | .ok p =>
        match compileNested compile idx what rest with
        | .error e => .error e
        | .ok rest' => .ok ({ d with matchRex := p.1, notMatchRex := p.2 } :: rest')

/-- The file-rule pass of `Config.validateRegexps` (src/unnamed/part_003,
lines 592-638): a file rule must have an id; a rule with an empty file
pattern is skipped whole (its nested rules are neither checked nor
compiled), as in the source. -/
def compileFiles (compile : String → Except String Rex) (c : Config) :
    Nat → List File → Except String (List File)
  | _, [] => .ok []
  | i, f :: rest =>
    if f.ID = "" then
      .error ("missing ID for file in files[" ++ toString i ++ "]")
    else if f.MatchFile = "" then
      match compileFiles compile c (i + 1) rest with
      | .error e => .error e
      | .ok rest' => .ok (f :: rest')
    else
      match compile f.MatchFile with
      | .error e => .error e
      | .ok m =>
        match compileNested compile c.contextIndex "context" f.Contexts with
        | .error e => .error e
        | .ok ctxs =>
          match compileNested compile c.versionIndex "version" f.Versions with
          | .error e => .error e
          | .ok vers =>
            match compileFiles compile c (i + 1) rest with
            | .error e => .error e
            | .ok rest' =>
              .ok ({ f with matchRex := some m, Contexts := ctxs, Versions := vers } :: rest')

/-- File-rule stage of `Config.validateRegexps`, given the already-compiled
function/context/version collections. -/
def validateRegexpsFiles (compile : String → Except String Rex) (c : Config)
    (fns ctxs vers : List Object) : Except String Config :=
  match compileFiles compile c 0 c.Files with
  | .error e => .error e
  | .ok fls =>
    .ok { c with Functions := fns, Contexts := ctxs, Versions := vers, Files := fls }

/-- Version stage of `Config.validateRegexps`. -/
def validateRegexpsVersions (compile : String → Except String Rex) (c : Config)
    (fns ctxs : List Object) : Except String Config :=
  match compileObjects compile "version" 0 c.Versions with
  | .error e => .error e
  | .ok vers => validateRegexpsFiles compile c fns ctxs vers

/-- Context stage of `Config.validateRegexps`. -/
def validateRegexpsContexts (compile : String → Except String Rex) (c : Config)
    (fns : List Object) : Except String Config :=
  match compileObjects compile "context" 0 c.Contexts with
  | .error e => .error e
  | .ok ctxs => validateRegexpsVersions compile c fns ctxs

/-- `Config.validateRegexps` (src/unnamed/part_003, lines 560-641): compile
every pattern, writing the compiled rules back into the collection slices
(the id indices are left with the uncompiled copies, as in the source). -/
def Config.validateRegexps (compile : String → Except String Rex) (c : Config) :
    Except String Config :=
  match compileObjects compile "function" 0 c.Functions with
  | .error e => .error e
  | .ok fns => validateRegexpsContexts compile c fns

/-- Tail of the `load` validation chain after the categories stage. -/
def loadFromCategories (compile : String → Except String Rex) (c4 : Config) :
    Except String Config :=
  match c4.validateCategories with
  | .error e => .error e
  | .ok c5 => c5.validateRegexps compile

/-- Tail of the `load` validation chain after the metrics stage. -/
def loadFromMetrics (compile : String → Except String Rex) (c3 : Config) :
    Except String Config :=
  match c3.validateMetrics with
  | .error e => .error e
  | .ok c4 => loadFromCategories compile c4

/-- Tail of the `load` validation chain after the versions stage. -/
def loadFromVersions (compile : String → Except String Rex) (c2 : Config) :
    Except String Config :=
  match c2.validateVersions with
  | .error e => .error e
  | .ok c3 => loadFromMetrics compile c3

/-- Tail of the `load` validation chain after the contexts stage. -/
def loadFromContexts (compile : String → Except String Rex) (c1 : Config) :
    Except String Config :=
  match c1.validateContexts with
  | .error e => .error e
  | .ok c2 => loadFromVersions compile c2

/-- The validation chain of `load` (src/unnamed/part_003, lines 378-409),
applied to the already-decoded raw document (YAML parsing and the
`mapstructure` overlay are out-of-scope adapters, see `mergeDoc`): the six
validation passes run in source order, any failure aborts with the first
error, and no rule store is produced. -/
def load (compile : String → Except String Rex) (cfg : Config) : Except String Config :=
  match cfg.validateFunctions with
  | .error e => .error e
  | .ok c1 => loadFromContexts compile c1

/-- `model.SeriesKey`: the `(function, version, context, metric)` key of a
series or point. -/
structure SeriesKey where
  Function : String := ""
  Version : String := ""
  Context : String := ""
  Metric : MetricName := ""

/-- `model.MetricPoint`; its embedded `SeriesKey` is the field `key`.
`float64` values are modelled as `Rat` (only ever copied). -/
structure MetricPoint where
  key : SeriesKey := {}
  Name : String := ""
  Value : Rat := 0

/-- `model.MetricSeries`; its embedded `SeriesKey` is the field `key`. -/
structure MetricSeries where
  key : SeriesKey := {}
  Title : String := ""
  Points : List MetricPoint := []

/-- `model.CategoryData`: the series for one metric and one version. -/
structure CategoryData where
  Version : Version := {}
  Metric : Metric := {}
  Series : List MetricSeries := []

/-- `model.Category` (the rendered-chart category, distinct from the
configuration `Category`). -/
structure ModelCategory where
  ID : String := ""
  Title : String := ""
  Environment : String := ""
  Data : List CategoryData := []

/-- `model.Scenario`. -/
structure Scenario where
  Name : String := ""
  Categories : List ModelCategory := []

/-- `golang.org/x/tools/benchmark/parse.Benchmark`: one raw benchmark record.
The four numeric metric fields are always materialized in the Go struct;
the `Measured*` flags model the `Measured` bitmask saying which fields were
actually present in the input. -/
structure Benchmark where
  Name : String := ""
  NsPerOp : Rat := 0
  AllocsPerOp : Nat := 0
  AllocedBytesPerOp : Nat := 0
  MBPerS : Rat := 0
  MeasuredNsPerOp : Bool := false
  MeasuredAllocsPerOp : Bool := false
  MeasuredBytesPerOp : Bool := false
  MeasuredMBPerS : Bool := false

/-- `parser.Set` (src/unnamed/part_004, lines 19-24): one parsed input file.
`parse.Set` is a Go map from benchmark name to records; it is modelled as
the list of its record groups (no claim depends on the map's iteration
order). -/
structure ParserSet where
  set : List (List Benchmark) := []
  File : String := ""
  Environment : String := ""

/-- `organizer.ParsedBenchmark`: one classified observation.  It embeds
`model.SeriesKey` (field `key`) and `model.MetricPoint` (field `point`);
the Go selectors `bench.Function` / `bench.Metric` resolve to `key`, and
`bench.Name` / `bench.Value` to `point`. -/
structure ParsedBenchmark where
  key : SeriesKey := {}
  point : MetricPoint := {}
  Environment : String := ""

/-- `organizer.BenchmarkSet`. -/
structure BenchmarkSet where
  set : List ParsedBenchmark := []

/-- `organizer.defaultString` (src/internal/pkg/parser/options.go,
lines 259-265). -/
def defaultString (a b : String) : String :=
  if a = "" then b else a

/-- `organizer.stringDefault` (src/internal/pkg/parser/options.go,
lines 331-336); textually identical to `defaultString`. -/
def stringDefault (a b : String) : String :=
  if a = "" then b else a

/-- `Organizer.parseBenchmarkName` (src/internal/pkg/parser/options.go,
lines 225-257): resolve the function by name (no match excludes the
record), then version and context by name with a file-rule fallback. -/
def Config.parseBenchmarkName (cfg : Config) (name file env : String) :
    Option ParsedBenchmark :=
  let pf := cfg.FindFunction name
  if pf.2 = false then none
  else
    let pv := cfg.FindVersion name
    let version := if pv.2 then pv.1 else (cfg.FindVersionFromFile file).1
    let pc := cfg.FindContext name
    let context := if pc.2 then pc.1 else (cfg.FindContextFromFile file).1
    some
      { key := { Function := pf.1, Version := version, Context := context }
        point := {}
        Environment := defaultString cfg.Environment env }

/-- `Organizer.resolveMetric` (src/internal/pkg/parser/options.go,
lines 129-140): when the searched metric exists in the metric index, append
one observation carrying the metric id, the metric title and the raw value. -/
def Config.resolveMetric (cfg : Config) (search : MetricName) (parsed : ParsedBenchmark)
    (value : Rat) (benchmarks : List ParsedBenchmark) : List ParsedBenchmark × Bool :=
  match cfg.GetMetric search with
  | some metric =>
    (benchmarks ++
      [{ parsed with
          key := { parsed.key with Metric := metric.ID }
          point := { parsed.point with Name := metric.Title, Value := value } }], true)
  | none => (benchmarks, false)

/-- The per-record body of `Organizer.parseBenchmarks`
(src/internal/pkg/parser/options.go, lines 77-110): classify the record,
then try all four fixed metric fields in order; strict mode turns an
unclassified record or a record with no resolved metric into a fatal
error. -/
def processBench (cfg : Config) (file env : String) (b : Benchmark)
    (benchmarks : List ParsedBenchmark) : Except String (List ParsedBenchmark) :=
  match cfg.parseBenchmarkName b.Name file env with
  | none =>
    if cfg.IsStrict then
      .error ("strict requirement not met for benchmark " ++ b.Name ++
        ": not ingested. Stopping here")
    else .ok benchmarks
  | some parsed =>
    let r1 := cfg.resolveMetric MetricNsPerOp parsed b.NsPerOp benchmarks
    let r2 := cfg.resolveMetric MetricAllocsPerOp parsed (b.AllocsPerOp : Rat) r1.1
    let r3 := cfg.resolveMetric MetricBytesPerOp parsed (b.AllocedBytesPerOp : Rat) r2.1
    let r4 := cfg.resolveMetric MetricMBPerS parsed b.MBPerS r3.1
    let resolved := r1.2 || r2.2 || r3.2 || r4.2
    if !resolved && cfg.IsStrict then
      .error ("strict requirement not met for benchmark " ++ b.Name ++
        ": empty series. Stopping here")
    else .ok r4.1

/-- Inner record loop of `Organizer.parseBenchmarks` over one group of
records. -/
def processBenches (cfg : Config) (file env : String) :
    List Benchmark → List ParsedBenchmark → Except String (List ParsedBenchmark)
  | [], benchmarks => .ok benchmarks
  | b :: rest, benchmarks =>
    match processBench cfg file env b benchmarks with
    | .error e => .error e
    | .ok benchmarks' => processBenches cfg file env rest benchmarks'

/-- Group loop of `Organizer.parseBenchmarks` over one parsed input file. -/
def processGroups (cfg : Config) (file env : String) :
    List (List Benchmark) → List ParsedBenchmark → Except String (List ParsedBenchmark)
  | [], benchmarks => .ok benchmarks
  | g :: rest, benchmarks =>
    match processBenches cfg file env g benchmarks with
    | .error e => .error e
    | .ok benchmarks' => processGroups cfg file env rest benchmarks'

/-- Outer file loop of `Organizer.parseBenchmarks`. -/
def processSets (cfg : Config) :
    List ParserSet → List ParsedBenchmark → Except String (List ParsedBenchmark)
  | [], benchmarks => .ok benchmarks
  | s :: rest, benchmarks =>
    match processGroups cfg s.File s.Environment s.set benchmarks with
    | .error e => .error e
    | .ok benchmarks' => processSets cfg rest benchmarks'

/-- `Organizer.parseBenchmarks` (src/internal/pkg/parser/options.go,
lines 69-127): classify every record; an empty final observation list is a
fatal error in strict mode only. -/
def parseBenchmarks (cfg : Config) (sets : List ParserSet) : Except String BenchmarkSet :=
  match processSets cfg sets [] with
  | .error e => .error e
  | .ok benchmarks =>
    if benchmarks.length = 0 && cfg.IsStrict then
      .error "strict requirement not met: empty benchmark set. Stopping here"
    else .ok { set := benchmarks }

/-- `BenchmarkSet.Environment` (src/internal/pkg/parser/options.go,
lines 281-289): first non-empty per-record environment. -/
def BenchmarkSet.environment (s : BenchmarkSet) : String :=
  (s.set.findSome? (fun b => if b.Environment ≠ "" then some b.Environment else none)).getD ""

/-- `BenchmarkSet.SeriesFor` (src/internal/pkg/parser/options.go,
lines 294-329): always a single series titled by the version, whose points
are collected by the (function × context × observation) triple loop. -/
def BenchmarkSet.SeriesFor (s : BenchmarkSet) (metric : MetricName) (version : String)
    (filter : Category) : List MetricSeries :=
  let points :=
    filter.Includes.Functions.flatMap (fun wantFunction =>
      filter.Includes.Contexts.flatMap (fun wantContext =>
        s.set.filterMap (fun bench =>
          if bench.key.Metric ≠ metric ∨ bench.key.Function ≠ wantFunction ∨
              bench.key.Version ≠ version ∨ bench.key.Context ≠ wantContext then none
          else
            some
              { key :=
                  { Function := bench.key.Function, Version := bench.key.Version
                    Context := bench.key.Context, Metric := bench.key.Metric }
                Name := bench.key.Function ++ " - " ++ bench.key.Version ++ " - " ++
                  bench.key.Context
                Value := bench.point.Value })))
  [{ key := { Version := version, Metric := metric }, Title := version, Points := points }]

/-- The `(metric × version)` data-assembly loop of
`Organizer.populateCategories` (src/internal/pkg/parser/options.go,
lines 183-194) for one configured category. -/
def buildCategoryData (cfg : Config) (set : BenchmarkSet) (categoryConfig : Category) :
    List CategoryData :=
  categoryConfig.Includes.Metrics.flatMap (fun metricID =>
    let metric := (cfg.GetMetric metricID).getD {}
    categoryConfig.Includes.Versions.map (fun versionID =>
      let version := (cfg.GetVersion versionID).getD {}
      { Metric := metric, Version := version
        Series := set.SeriesFor metric.ID version.ID categoryConfig }))

/-- One configured category assembled into a `ModelCategory`
(src/internal/pkg/parser/options.go, lines 176-194).  The environment is
assigned inside the data loop in the source, hence stays empty when the
loop body never runs. -/
def buildCategory (cfg : Config) (set : BenchmarkSet) (categoryConfig : Category) :
    ModelCategory :=
  let data := buildCategoryData cfg set categoryConfig
  { ID := categoryConfig.ID
    Title := categoryConfig.Title
    Environment := if data.isEmpty then "" else stringDefault cfg.Environment set.environment
    Data := data }

/-- Category loop of `Organizer.populateCategories`: a category with an
empty data list is skipped (fatal in strict mode); the rest are kept. -/
def populateCategoriesLoop (cfg : Config) (set : BenchmarkSet) :
    List Category → Except String (List ModelCategory)
  | [] => .ok []
  | categoryConfig :: rest =>
    let category := buildCategory cfg set categoryConfig
    if category.Data.length = 0 then
      if cfg.IsStrict then
        .error ("strict requirement not met for category " ++ category.ID ++
          ": no data for category. Stopping here")
      else populateCategoriesLoop cfg set rest
    else
      match populateCategoriesLoop cfg set rest with
      | .error e => .error e
      | .ok rest' => .ok (category :: rest')

/-- `Organizer.populateCategories` (src/internal/pkg/parser/options.go,
lines 168-214). -/
def populateCategories (cfg : Config) (set : BenchmarkSet) : Except String Scenario :=
  match populateCategoriesLoop cfg set cfg.Categories with
  | .error e => .error e
  | .ok categories => .ok { Name := cfg.Name, Categories := categories }

/-- `Organizer.Scenarize` (src/internal/pkg/parser/options.go, lines 54-66):
the two-pass pipeline `(RuleStore, [RawRecord]) → (Scenario, error)`. -/
def Scenarize (cfg : Config) (sets : List ParserSet) : Except String Scenario :=
  match parseBenchmarks cfg sets with
  | .error e => .error e
  | .ok newSet => populateCategories cfg newSet

/-- ASCII digit test, mirroring the `r < '0' || r > '9'` rune check of
`benchNameToID`. -/
def isAsciiDigit (c : Char) : Bool :=
  '0' ≤ c && c ≤ '9'

/-- Index of the last occurrence of `c` (`strings.LastIndex`; byte and rune
indices agree here because `-` is a one-byte rune and only its position is
used for slicing). -/
def lastIdxOf (cs : List Char) (c : Char) : Option Nat :=
  ((cs.enum.filter (fun p => p.2 = c)).getLast?).map (fun p => p.1)

/-- The GOMAXPROCS-suffix stripping step of `benchNameToID`
(src/unnamed/part_003, lines 773-786): drop a trailing `-<digits>` tag when
the dash is not the first character. -/
def stripMaxprocs (cs : List Char) : List Char :=
  match lastIdxOf cs '-' with
  | none => cs
  | some idx =>
    if 0 < idx then
      let suffix := cs.drop (idx + 1)
      if suffix.length > 0 && suffix.all isAsciiDigit then cs.take idx else cs
    else cs

/-- `benchNameToID` (src/unnamed/part_003, lines 767-799): strip the
`Benchmark` prefix and one leading underscore, strip a trailing numeric
GOMAXPROCS suffix, map `/` and `_` to `-`, lowercase (ASCII lowercasing;
benchmark names are Go identifiers with slashes). -/
def benchNameToID (name : String) : String :=
  let cs := name.toList
  let cs := if ("Benchmark".toList).isPrefixOf cs then cs.drop 9 else cs
  let cs :=
    match cs with
    | '_' :: rest => rest
    | _ => cs
  let cs := stripMaxprocs cs
  let cs := cs.map (fun c => if c = '/' ∨ c = '_' then '-' else c)
  ⟨cs.map Char.toLower⟩

/-- The characters `regexp.QuoteMeta` escapes. -/
def regexSpecialChars : List Char :=
  ['\\', '.', '+', '*', '?', '(', ')', '|', '[', ']', '\x7b', '\x7d', '^', '$']

/-- `regexp.QuoteMeta`: escape every regex metacharacter with a backslash,
producing a literal pattern. -/
def quoteMeta (s : String) : String :=
  ⟨s.toList.flatMap (fun c => if c ∈ regexSpecialChars then ['\\', c] else [c])⟩

/-- `config.GenerateInput` (src/unnamed/part_003, lines 682-685). -/
structure GenerateInput where
  Functions : List String := []
  Metrics : List MetricName := []

/-- Modelled from the spec: the embedded `default_config.yaml` asset is not
among the sources.  Per §4.4 of the spec the default document carries the
rendering defaults and defines no functions, versions, contexts or file
rules (a generated category's empty versions/contexts expand to "none,
since none are defined"); it supplies display metadata for the four
standard metrics, which `Generate` looks up.  The concrete titles, axis
labels and render values below are placeholders — no claim depends on
them. -/
def defaultConfigDoc : Config :=
  { Name := "Default Config"
    Render := { Theme := "default", Chart := "bar" }
    Metrics :=
      [ { ID := MetricNsPerOp, Title := "Time per operation", Axis := "ns/op" },
        { ID := MetricAllocsPerOp, Title := "Allocations per operation", Axis := "allocs/op" },
        { ID := MetricBytesPerOp, Title := "Bytes per operation", Axis := "bytes/op" },
        { ID := MetricMBPerS, Title := "Throughput", Axis := "MB/s" } ] }

/-- The function-building loop of `Generate` (src/unnamed/part_003,
lines 722-737): one function rule per distinct normalized id, first
occurrence wins, with a `QuoteMeta` literal pattern matching the original
name. -/
def genFunctions : List String → List String → List Function
  | [], _ => []
  | name :: rest, seen =>
    let id := benchNameToID name
    if id ∈ seen then genFunctions rest seen
    else
      { ID := id, Title := titleize id, Match := quoteMeta name } ::
        genFunctions rest (id :: seen)

/-- The metric entry `Generate` emits for one supplied metric name: the
default document's entry when the name is known there, else a fresh entry
with a titleized title. -/
def generatedMetric (name : MetricName) : Metric :=
  match defaultConfigDoc.Metrics.find? (fun m => m.ID = name) with
  | some dm => dm
  | none => { ID := name, Title := titleize name }

/-- The single catch-all category `Generate` emits, bundling every generated
function id and every supplied metric id (versions and contexts left
empty). -/
def genCategory (input : GenerateInput) : Category :=
  { ID := "all"
    Title := "All Benchmarks (\x7bmetric\x7d)"
    Includes :=
      { Functions := (genFunctions input.Functions []).map Object.ID
        Metrics := (input.Metrics.map generatedMetric).map Metric.ID } }

/-- `config.Generate` (src/unnamed/part_003, lines 691-762): build a config
from parsed benchmark data — the supplied metrics (enriched from the
default document when known there), one function per distinct normalized
benchmark name, and a single catch-all `all` category. -/
def Generate (input : GenerateInput) : Config :=
  { Name := "Generated Config"
    Render := defaultConfigDoc.Render
    Metrics := input.Metrics.map generatedMetric
    Functions := genFunctions input.Functions []
    Categories := [genCategory input] }

/-- Serialization stripping for `Object`: compiled regexps are unexported
and not emitted by `Config.EncodeYAML`. -/
def stripObject (o : Object) : Object :=
  { ID := o.ID, Title := o.Title, Match := o.Match, NotMatch := o.NotMatch }

/-- Serialization stripping for `File`. -/
def stripFile (f : File) : File :=
  { ID := f.ID, MatchFile := f.MatchFile
    Contexts := f.Contexts.map stripObject, Versions := f.Versions.map stripObject }

/-- Models `Config.EncodeYAML` (src/unnamed/part_003, lines 140-160)
followed by the YAML/`mapstructure` re-parsing inside `config.Load`: every
exported document field round-trips unchanged; runtime-only fields
(`IsStrict` etc.) and unexported fields (compiled regexps, indices) are not
serialized. -/
def encodeDoc (c : Config) : Config :=
  { Name := c.Name
    Environment := c.Environment
    Render := c.Render
    Metrics := c.Metrics
    Functions := c.Functions.map stripObject
    Contexts := c.Contexts.map stripObject
    Versions := c.Versions.map stripObject
    Categories := c.Categories
    Files := c.Files.map stripFile }

/-- Models the defaults overlay of `config.Load` (src/unnamed/part_003,
lines 339-377): the embedded defaults are loaded first and the user
document is decoded over them field by field — scalar fields are always
overwritten (`EncodeYAML` emits every key), while a nil (empty) list in the
user document keeps the defaults' list (`mapstructure` skips nil values).
`IsStrict` is runtime-only and never comes from a document. -/
def mergeDoc (defaults user : Config) : Config :=
  { Name := user.Name
    IsStrict := false
    Environment := user.Environment
    Render := user.Render
    Metrics := if user.Metrics.isEmpty then defaults.Metrics else user.Metrics
    Functions := if user.Functions.isEmpty then defaults.Functions else user.Functions
    Contexts := if user.Contexts.isEmpty then defaults.Contexts else user.Contexts
    Versions := if user.Versions.isEmpty then defaults.Versions else user.Versions
    Categories := if user.Categories.isEmpty then defaults.Categories else user.Categories
    Files := if user.Files.isEmpty then defaults.Files else user.Files }

/-- The round trip of §4.4 / §8: `Generate`, serialize, then `config.Load`
(defaults overlay followed by validation). -/
def roundTrip (compile : String → Except String Rex) (input : GenerateInput) :
    Except String Config :=
  load compile (mergeDoc defaultConfigDoc (encodeDoc (Generate input)))

/-- Whether an `Except` result is a success. -/
def exceptIsOk {ε α : Type} : Except ε α → Bool
  | .ok _ => true
  | .error _ => false

/-- A fixture: a regexp matching everything. -/
def rexAll : Rex := ⟨fun _ => true⟩

/-- A fixture: pattern compilation that always succeeds with `rexAll`. -/
def compileAlways : String → Except String Rex := fun _ => .ok rexAll

/-- A file rule whose file pattern matches everything and that carries no
nested version rules. -/
def exFileNoVersions : File :=
  { ID := "f1", MatchFile := "a", matchRex := some rexAll }

/-- A later file rule, also matching everything, whose nested version rule
matches. -/
def exFileWithVersion : File :=
  { ID := "f2", MatchFile := "a", matchRex := some rexAll
    Versions := [{ ID := "v2", Match := "a", matchRex := some rexAll }] }

/-- A rule store with the two file rules above, in that order. -/
def exConfigFiles : Config :=
  { Files := [exFileNoVersions, exFileWithVersion] }

/-- The observation `resolveMetric` appends for a metric found in the index:
the classified key extended with the metric id, the metric title as point
name, and the raw value. -/
def mkObs (parsed : ParsedBenchmark) (metric : Metric) (value : Rat) : ParsedBenchmark :=
  { parsed with
      key := { parsed.key with Metric := metric.ID }
      point := { parsed.point with Name := metric.Title, Value := value } }

/-- The four fixed metric fields of a record, in the order `parseBenchmarks`
tries them (`nsPerOp`, `allocsPerOp`, `bytesPerOp`, `MBytesPerS`), paired
with the record's numeric value for each.  Defined for every record — the
`Measured*` flags play no role. -/
def fixedMetricValues (b : Benchmark) : List (MetricName × Rat) :=
  [(MetricNsPerOp, b.NsPerOp), (MetricAllocsPerOp, (b.AllocsPerOp : Rat)),
    (MetricBytesPerOp, (b.AllocedBytesPerOp : Rat)), (MetricMBPerS, b.MBPerS)]

/-- The observations one classified record contributes: one per fixed metric
field whose `MetricName` is in the metric index, with the field's value
copied through. -/
def fixedObservations (cfg : Config) (parsed : ParsedBenchmark) (b : Benchmark) :
    List ParsedBenchmark :=
  (fixedMetricValues b).filterMap
    (fun mv => (cfg.GetMetric mv.1).map (fun metric => mkObs parsed metric mv.2))

/-- Extracts a `Config` from a load result (test fixture helper). -/
def configOrDefault (r : Except String Config) : Config :=
  match r with
  | .ok c => c
  | .error _ => {}

/-- A document with `nsPerOp` and `allocsPerOp` metrics and one catch-all
function rule. -/
def docC8 : Config :=
  { Metrics := [{ ID := MetricNsPerOp }, { ID := MetricAllocsPerOp }],
    Functions := [{ ID := "f", Match := "x" }] }

/-- The rule store loaded from `docC8` (with an always-matching pattern
compiler). -/
def cfgC8 : Config := configOrDefault (load compileAlways docC8)

/-- A record measured for `nsPerOp` only: its `allocsPerOp` field is absent
(`MeasuredAllocsPerOp = false`, zero value). -/
def benchC8 : Benchmark := { Name := "BenchmarkX", NsPerOp := 5, MeasuredNsPerOp := true }

/-- The classification `cfgC8` assigns to `benchC8`. -/
def parsedC8 : ParsedBenchmark :=
  (cfgC8.parseBenchmarkName benchC8.Name "bench.txt" "").getD {}

/-- A category filter with one metric and one version (witness fixture). -/
def catW : Category :=
  { ID := "w", Includes := { Metrics := [MetricNsPerOp], Versions := ["v"] } }

/-- **C4 (counterexample) fixture**: a document with one metric, one version
(no patterns anywhere) and one category including both. -/
def docC4 : Config :=
  { Metrics := [{ ID := MetricNsPerOp }], Versions := [{ ID := "v1" }],
    Categories := [{ ID := "cat", Includes := { Metrics := [MetricNsPerOp] } }] }

/-- The validated rule store loaded from `docC4`. -/
def cfgC4 : Config := configOrDefault (load compileAlways docC4)

/-- A document whose categories collection has two entries with the same id
(and a metric so that each category validates). -/
def docDupCat : Config :=
  { Metrics := [{ ID := MetricNsPerOp }],
    Categories := [{ ID := "a", Includes := { Metrics := [MetricNsPerOp] } },
                   { ID := "a", Includes := { Metrics := [MetricNsPerOp] } }] }

/-- A document whose functions collection has a duplicate id. -/
def docDupFun : Config := { Functions := [{ ID := "f" }, { ID := "f" }] }

/-- A document with two functions, one metric, and a category that omits
`includes.functions` (and versions and contexts). -/
def docC6 : Config :=
  { Functions := [{ ID := "f1" }, { ID := "f2" }],
    Metrics := [{ ID := MetricNsPerOp }],
    Categories := [{ ID := "cat", Includes := { Metrics := [MetricNsPerOp] } }] }

/-- The rule store loaded from `docC6`. -/
def cfgC6 : Config := configOrDefault (load compileAlways docC6)

/-- The single category of `cfgC6` after load. -/
def catC6 : Category := cfgC6.Categories.headD {}

/-- The observations a single raw record contributes to the pipeline: none
when no function rule matches its name, otherwise one per indexed fixed
metric. -/
def benchContrib (cfg : Config) (file env : String) (b : Benchmark) : List ParsedBenchmark :=
  match cfg.parseBenchmarkName b.Name file env with
  | none => []
  | some parsed => fixedObservations cfg parsed b

/-- The observations one parsed input file contributes. -/
def setContrib (cfg : Config) (s : ParserSet) : List ParsedBenchmark :=
  s.set.flatMap (fun g => g.flatMap (benchContrib cfg s.File s.Environment))

/-- All raw records of an input batch. -/
def allRecords (sets : List ParserSet) : List Benchmark :=
  sets.flatMap (fun s => s.set.flatMap (fun g => g))

/-- A store with one function rule that matches only the name `"match"`. -/
def cfg7 : Config :=
  { Functions := [{ ID := "f", Match := "match", matchRex := some ⟨fun s => s == "match"⟩ }] }

/-- `cfg7` in strict mode. -/
def cfg7strict : Config := { cfg7 with IsStrict := true }

/-- A record whose name no function rule matches. -/
def b7 : Benchmark := { Name := "X" }

/-- The function count of a load result, when it succeeded. -/
def functionCount : Except String Config → Option Nat
  | .ok c => some c.Functions.length
  | .error _ => none

/-- An input whose metric list is empty. -/
def inputC9bad : GenerateInput := { Functions := ["BenchmarkFoo"], Metrics := [] }

/-- An input with three record names normalizing to two distinct ids, and
one metric. -/
def inputC9 : GenerateInput :=
  { Functions := ["BenchmarkFoo-16", "BenchmarkFoo/bar-16", "BenchmarkFoo"],
    Metrics := [MetricNsPerOp] }

/-- A pattern compiler accepting every pattern (matching by string
equality). -/
def compileC9 : String → Except String Rex := fun s => .ok ⟨fun t => t == s⟩

/-! ## Theorems -/

theorem matchString_snd (o : Object) (x : String) :
    (o.MatchString x).2 =
      match o.matchRex, o.notMatchRex with
      | none, none => false
      | some r, none => r.isMatch x
      | none, some nr => !nr.isMatch x
      | some r, some nr => r.isMatch x && !nr.isMatch x := by
  unfold Object.MatchString
  cases hm : o.matchRex with
  | none =>
    cases hn : o.notMatchRex with
    | none => simp
    | some nr => cases h : nr.isMatch x <;> simp [h]
  | some r =>
    cases hn : o.notMatchRex with
    | none => cases h : r.isMatch x <;> simp [h]
    | some nr => cases h : r.isMatch x <;> cases h2 : nr.isMatch x <;> simp [h, h2]

theorem matchString_fst (o : Object) (x : String) :
    (o.MatchString x).1 = if (o.MatchString x).2 = true then o.ID else "" := by
  unfold Object.MatchString
  cases hm : o.matchRex with
  | none =>
    cases hn : o.notMatchRex with
    | none => simp
    | some nr => cases h : nr.isMatch x <;> simp [h]
  | some r =>
    cases hn : o.notMatchRex with
    | none => cases h : r.isMatch x <;> simp [h]
    | some nr => cases h : r.isMatch x <;> cases h2 : nr.isMatch x <;> simp [h, h2]

theorem matchString_fst_of_matched (o : Object) (x : String)
    (h : (o.MatchString x).2 = true) : (o.MatchString x).1 = o.ID := by
  rw [matchString_fst, h]
  simp

/-- **C1.** `Object.MatchString` semantics, for every match rule `o` and input
`x`: with no pattern at all the rule never fires; with only a positive
pattern it fires iff the positive pattern matches; with only a negative
pattern it fires iff the negative pattern does not match; with both it
fires iff the positive matches and the negative does not. -/
theorem claim1_matchRule_semantics (o : Object) (x : String) :
    (o.MatchString x).2 =
      match o.matchRex, o.notMatchRex with
      | none, none => false
      | some r, none => r.isMatch x
      | none, some nr => !nr.isMatch x
      | some r, some nr => r.isMatch x && !nr.isMatch x :=
  matchString_snd o x

theorem findFirstMatch_eq_find? (objs : List Object) (name : String) :
    findFirstMatch objs name =
      match objs.find? (fun o => (o.MatchString name).2) with
      | some o => (o.ID, true)
      | none => ("", false) := by
  induction objs with
  | nil => rfl
  | cons o rest ih =>
    rw [findFirstMatch]
    cases h : (o.MatchString name).2 with
    | true =>
      simp only [h, if_true, List.find?, h]
      simp [matchString_fst_of_matched o name h]
    | false =>
      simp only [h, if_false, List.find?, h]
      simpa using ih

/-- **C2.** `Config.FindFunction`, `Config.FindVersion` and
`Config.FindContext` each scan their rule collection in declaration order
and return the id of the first rule whose pattern set matches together with
`true` (`List.find?` returns the first satisfying element, so a matching
rule earlier in the collection shadows any later one); when no rule
matches, they return `("", false)`. -/
theorem claim2_find_first_declared_rule_wins (c : Config) (name : String) :
    (c.FindFunction name =
      match c.Functions.find? (fun o => (o.MatchString name).2) with
      | some o => (o.ID, true)
      | none => ("", false)) ∧
    (c.FindVersion name =
      match c.Versions.find? (fun o => (o.MatchString name).2) with
      | some o => (o.ID, true)
      | none => ("", false)) ∧
    (c.FindContext name =
      match c.Contexts.find? (fun o => (o.MatchString name).2) with
      | some o => (o.ID, true)
      | none => ("", false)) :=
  ⟨findFirstMatch_eq_find? c.Functions name, findFirstMatch_eq_find? c.Versions name,
    findFirstMatch_eq_find? c.Contexts name⟩

theorem findFromFiles_eq_findSome? (sel : File → List Object) (files : List File)
    (file : String) :
    findFromFiles sel files file =
      match files.findSome? (fun f =>
          if (f.MatchString file).2 then
            (sel f).findSome? (fun o =>
              let p := o.MatchString file
              if p.2 then some p.1 else none)
          else none) with
      | some id => (id, true)
      | none => ("", false) := by
  induction files with
  | nil => rfl
  | cons f rest ih =>
    rw [findFromFiles, List.findSome?]
    cases hf : (f.MatchString file).2 with
    | false => simpa [hf] using ih
    | true =>
      simp only [hf, if_true]
      cases hn : (sel f).findSome? (fun o =>
          let p := o.MatchString file
          if p.2 then some p.1 else none) with
      | some id => simp [hn]
      | none => simpa [hn] using ih

/-- **C3 (counterexample).** The first file rule's file pattern matches
`"bench.txt"` and its nested version scan yields no match (it has no
version rules at all), yet `FindVersionFromFile` does **not** stop there
and return no match: it falls through to the second file rule and returns
its nested match `("v2", true)`. -/
theorem claim3_counterexample_no_early_stop :
    ((exFileNoVersions.MatchString "bench.txt").2 = true) ∧
    (exFileNoVersions.Versions = []) ∧
    (exConfigFiles.FindVersionFromFile "bench.txt" = ("v2", true)) :=
  ⟨rfl, rfl, rfl⟩

/-- **C3 (amended).** `FindVersionFromFile` (and symmetrically
`FindContextFromFile`) scans the File Rules in declaration order; for each
rule whose file pattern matches the filename it scans that rule's nested
version (resp. context) rules first-match-wins, and when a matching File
Rule's nested scan yields no match it **continues with the later File
Rules** instead of stopping; it returns no match only when no matching File
Rule has a matching nested rule.  (`List.findSome?` returns the first
non-`none` result of the scan.) -/
theorem claim3_find_from_file_scans_all_file_rules (c : Config) (file : String) :
    (c.FindVersionFromFile file =
      match c.Files.findSome? (fun f =>
          if (f.MatchString file).2 then
            f.Versions.findSome? (fun o =>
              let p := o.MatchString file
              if p.2 then some p.1 else none)
          else none) with
      | some id => (id, true)
      | none => ("", false)) ∧
    (c.FindContextFromFile file =
      match c.Files.findSome? (fun f =>
          if (f.MatchString file).2 then
            f.Contexts.findSome? (fun o =>
              let p := o.MatchString file
              if p.2 then some p.1 else none)
          else none) with
      | some id => (id, true)
      | none => ("", false)) :=
  ⟨findFromFiles_eq_findSome? (fun f => f.Versions) c.Files file,
    findFromFiles_eq_findSome? (fun f => f.Contexts) c.Files file⟩

theorem resolveMetric_eq (cfg : Config) (search : MetricName) (parsed : ParsedBenchmark)
    (value : Rat) (benchmarks : List ParsedBenchmark) :
    cfg.resolveMetric search parsed value benchmarks =
      (benchmarks ++ ((cfg.GetMetric search).map (fun metric => mkObs parsed metric value)).toList,
        (cfg.GetMetric search).isSome) := by
  unfold Config.resolveMetric mkObs
  cases cfg.GetMetric search <;> simp

theorem filterMap_cons_toList {α β : Type} (f : α → Option β) (x : α) (l : List α) :
    List.filterMap f (x :: l) = (f x).toList ++ List.filterMap f l := by
  cases h : f x <;> simp [h]

theorem processBench_classified (cfg : Config) (file env : String) (b : Benchmark)
    (benchmarks : List ParsedBenchmark) (parsed : ParsedBenchmark)
    (hclass : cfg.parseBenchmarkName b.Name file env = some parsed)
    (hkeep : cfg.IsStrict = false ∨ fixedObservations cfg parsed b ≠ []) :
    processBench cfg file env b benchmarks = .ok (benchmarks ++ fixedObservations cfg parsed b) := by
  unfold processBench
  rw [hclass]
  simp only [resolveMetric_eq]
  unfold fixedObservations fixedMetricValues at *
  simp only [filterMap_cons_toList, List.filterMap_nil] at *
  cases h1 : cfg.GetMetric MetricNsPerOp <;> cases h2 : cfg.GetMetric MetricAllocsPerOp <;>
    cases h3 : cfg.GetMetric MetricBytesPerOp <;> cases h4 : cfg.GetMetric MetricMBPerS <;>
    simp_all

/-- The values carried by the observations of one record are exactly the
record's field values for the metrics present in the index, in order. -/
theorem fixedObservations_values (cfg : Config) (parsed : ParsedBenchmark) (b : Benchmark) :
    (fixedObservations cfg parsed b).map (fun p => p.point.Value) =
      ((fixedMetricValues b).filter (fun mv => (cfg.GetMetric mv.1).isSome)).map
        (fun mv => mv.2) := by
  unfold fixedObservations
  induction fixedMetricValues b with
  | nil => rfl
  | cons mv rest ih =>
    cases h : cfg.GetMetric mv.1 with
    | none => simp [h, ih]
    | some m => simp [h, ih, show ∀ v, (mkObs parsed m v).point.Value = v from fun _ => rfl]

/-- The observation list of a record depends only on its four numeric metric
fields; in particular the `Measured*` presence flags are ignored. -/
theorem fixedObservations_ignores_measured (cfg : Config) (parsed : ParsedBenchmark)
    (b b' : Benchmark) (h1 : b'.NsPerOp = b.NsPerOp) (h2 : b'.AllocsPerOp = b.AllocsPerOp)
    (h3 : b'.AllocedBytesPerOp = b.AllocedBytesPerOp) (h4 : b'.MBPerS = b.MBPerS) :
    fixedObservations cfg parsed b' = fixedObservations cfg parsed b := by
  unfold fixedObservations fixedMetricValues
  rw [h1, h2, h3, h4]

/-- **C8 (counterexample).** The `allocsPerOp` field is **not** present in
`benchC8` (it was not measured), yet because `allocsPerOp` is in the rule
store's metric index the aggregator still emits an `allocsPerOp`
observation (with the zero value) for the record — the claim's "no
observation is emitted for a metric field not present in the record" fails. -/
theorem claim8_counterexample_absent_field_emitted :
    (benchC8.MeasuredAllocsPerOp = false) ∧
    ((match processBench cfgC8 "bench.txt" "" benchC8 [] with
      | .ok l => l.map (fun p => p.key.Metric)
      | .error _ => []) = [MetricNsPerOp, MetricAllocsPerOp]) :=
  ⟨rfl, rfl⟩

/-- **C8 (amended).** For every successfully classified record, the
aggregator emits exactly one observation per metric among the four fixed
metric fields whose `MetricName` exists in the rule store's metric index,
with that field's numeric value copied through unchanged — regardless of
whether the field was actually measured (present) in the record: the
emission depends only on the four numeric field values, and an absent
field contributes its zero value. -/
theorem claim8_observations_per_indexed_metric (cfg : Config) (file env : String)
    (b : Benchmark) (benchmarks : List ParsedBenchmark) (parsed : ParsedBenchmark)
    (hclass : cfg.parseBenchmarkName b.Name file env = some parsed)
    (hkeep : cfg.IsStrict = false ∨ fixedObservations cfg parsed b ≠ []) :
    (processBench cfg file env b benchmarks =
      .ok (benchmarks ++ fixedObservations cfg parsed b)) ∧
    ((fixedObservations cfg parsed b).map (fun p => p.point.Value) =
      ((fixedMetricValues b).filter (fun mv => (cfg.GetMetric mv.1).isSome)).map
        (fun mv => mv.2)) ∧
    (∀ b' : Benchmark, b'.NsPerOp = b.NsPerOp → b'.AllocsPerOp = b.AllocsPerOp →
      b'.AllocedBytesPerOp = b.AllocedBytesPerOp → b'.MBPerS = b.MBPerS →
      fixedObservations cfg parsed b' = fixedObservations cfg parsed b) :=
  ⟨processBench_classified cfg file env b benchmarks parsed hclass hkeep,
    fixedObservations_values cfg parsed b,
    fun b' h1 h2 h3 h4 => fixedObservations_ignores_measured cfg parsed b b' h1 h2 h3 h4⟩

/-- **C8 (witness).** The amended theorem applied to `cfgC8` and `benchC8`. -/
theorem claim8_witness :
    processBench cfgC8 "bench.txt" "" benchC8 [] =
      .ok ([] ++ fixedObservations cfgC8 parsedC8 benchC8) :=
  (claim8_observations_per_indexed_metric cfgC8 "bench.txt" "" benchC8 [] parsedC8
    (by rfl) (Or.inl rfl)).1

theorem seriesFor_titles (s : BenchmarkSet) (metric : MetricName) (version : String)
    (filter : Category) :
    (s.SeriesFor metric version filter).map (fun sr => sr.Title) = [version] := by
  simp [BenchmarkSet.SeriesFor]

theorem seriesFor_points_nil (s : BenchmarkSet) (metric : MetricName) (version : String)
    (filter : Category)
    (h : ∀ b ∈ s.set, ¬(b.key.Metric = metric ∧ b.key.Version = version ∧
        b.key.Function ∈ filter.Includes.Functions ∧
        b.key.Context ∈ filter.Includes.Contexts)) :
    (s.SeriesFor metric version filter).map (fun sr => sr.Points) = [[]] := by
  simp only [BenchmarkSet.SeriesFor, List.map]
  congr 1
  rw [List.eq_nil_iff_forall_not_mem]
  intro p hp
  rw [List.mem_flatMap] at hp
  obtain ⟨wf, hwf, hp⟩ := hp
  rw [List.mem_flatMap] at hp
  obtain ⟨wc, hwc, hp⟩ := hp
  rw [List.mem_filterMap] at hp
  obtain ⟨b, hb, hsome⟩ := hp
  by_cases hcond : (b.key.Metric ≠ metric ∨ b.key.Function ≠ wf ∨
      b.key.Version ≠ version ∨ b.key.Context ≠ wc)
  · rw [if_pos hcond] at hsome
    exact Option.noConfusion hsome
  · push_neg at hcond
    obtain ⟨hM, hF, hV, hC⟩ := hcond
    exact h b hb ⟨hM, hV, hF ▸ hwf, hC ▸ hwc⟩

theorem buildCategoryData_length (cfg : Config) (set : BenchmarkSet) (catCfg : Category) :
    (buildCategoryData cfg set catCfg).length =
      catCfg.Includes.Metrics.length * catCfg.Includes.Versions.length := by
  unfold buildCategoryData
  induction catCfg.Includes.Metrics with
  | nil => simp
  | cons m rest ih => simp [ih, Nat.succ_mul, Nat.add_comm]

/-- **C10.** `SeriesFor` always returns exactly one series — never zero,
never more — whose title is the version id; its points list is empty when
no observation matches the `(function, version, context, metric)` keys
drawn from the category filter; and consequently every assembled category
holds exactly `|included metrics| × |included versions|` data entries. -/
theorem claim10_one_series_per_metric_version :
    (∀ (s : BenchmarkSet) (metric : MetricName) (version : String) (filter : Category),
      (s.SeriesFor metric version filter).map (fun sr => sr.Title) = [version]) ∧
    (∀ (s : BenchmarkSet) (metric : MetricName) (version : String) (filter : Category),
      (∀ b ∈ s.set, ¬(b.key.Metric = metric ∧ b.key.Version = version ∧
          b.key.Function ∈ filter.Includes.Functions ∧
          b.key.Context ∈ filter.Includes.Contexts)) →
      (s.SeriesFor metric version filter).map (fun sr => sr.Points) = [[]]) ∧
    (∀ (cfg : Config) (set : BenchmarkSet) (catCfg : Category),
      (buildCategory cfg set catCfg).Data.length =
        catCfg.Includes.Metrics.length * catCfg.Includes.Versions.length) :=
  ⟨seriesFor_titles, seriesFor_points_nil,
    fun cfg set catCfg => buildCategoryData_length cfg set catCfg⟩

/-- **C10 (witness).** The invariant instantiated at an empty observation
set and the one-metric/one-version category `catW`. -/
theorem claim10_witness :
    (BenchmarkSet.SeriesFor { set := [] } MetricNsPerOp "v" catW).map (fun sr => sr.Title) =
      ["v"] ∧
    (BenchmarkSet.SeriesFor { set := [] } MetricNsPerOp "v" catW).map (fun sr => sr.Points) =
      [[]] ∧
    (buildCategory ({} : Config) { set := [] } catW).Data.length = 1 * 1 := by
  obtain ⟨h1, h2, h3⟩ := claim10_one_series_per_metric_version
  exact ⟨h1 { set := [] } MetricNsPerOp "v" catW,
    h2 { set := [] } MetricNsPerOp "v" catW (by simp),
    h3 {} { set := [] } catW⟩

theorem buildCategory_data (cfg : Config) (set : BenchmarkSet) (c : Category) :
    (buildCategory cfg set c).Data = buildCategoryData cfg set c := rfl

theorem buildCategoryData_eq_nil_iff (cfg : Config) (set : BenchmarkSet) (c : Category) :
    buildCategoryData cfg set c = [] ↔
      (c.Includes.Metrics = [] ∨ c.Includes.Versions = []) := by
  rw [← List.length_eq_zero, buildCategoryData_length, Nat.mul_eq_zero,
    List.length_eq_zero, List.length_eq_zero]

theorem populateCategoriesLoop_nonstrict (cfg : Config) (set : BenchmarkSet)
    (h : cfg.IsStrict = false) (cats : List Category) :
    populateCategoriesLoop cfg set cats =
      .ok ((cats.filter (fun c => !(buildCategoryData cfg set c).isEmpty)).map
        (buildCategory cfg set)) := by
  induction cats with
  | nil => rfl
  | cons c rest ih =>
    rw [populateCategoriesLoop, buildCategory_data]
    by_cases hd : (buildCategoryData cfg set c).length = 0
    · rw [if_pos hd, h]
      simp only [Bool.false_eq_true, if_false]
      rw [ih]
      congr 1
      rw [List.filter_cons]
      rw [List.length_eq_zero] at hd
      simp [hd]
    · rw [if_neg hd, ih]
      rw [List.filter_cons]
      have : (buildCategoryData cfg set c).isEmpty = false := by
        rw [List.isEmpty_eq_false_iff_exists_mem]
        rcases List.exists_mem_of_length_pos (Nat.pos_of_ne_zero hd) with ⟨x, hx⟩
        exact ⟨x, hx⟩
      simp [this]

theorem populateCategoriesLoop_strict_ok_iff (cfg : Config) (set : BenchmarkSet)
    (h : cfg.IsStrict = true) (cats : List Category) :
    exceptIsOk (populateCategoriesLoop cfg set cats) = true ↔
      ∀ c ∈ cats, buildCategoryData cfg set c ≠ [] := by
  induction cats with
  | nil => simp [populateCategoriesLoop, exceptIsOk]
  | cons c rest ih =>
    rw [populateCategoriesLoop, buildCategory_data]
    by_cases hd : (buildCategoryData cfg set c).length = 0
    · rw [if_pos hd, h]
      rw [List.length_eq_zero] at hd
      simp [exceptIsOk, hd]
    · rw [if_neg hd]
      have hne : buildCategoryData cfg set c ≠ [] := by
        intro hnil
        rw [hnil] at hd
        exact hd rfl
      cases hrec : populateCategoriesLoop cfg set rest with
      | error e =>
        rw [hrec] at ih
        simp only [exceptIsOk] at ih ⊢
        constructor
        · intro hfalse
          simp at hfalse
        · intro hall
          have : ∀ c' ∈ rest, buildCategoryData cfg set c' ≠ [] :=
            fun c' hc' => hall c' (List.mem_cons_of_mem _ hc')
          have hcontr := ih.mpr this
          simp at hcontr
      | ok rest' =>
        rw [hrec] at ih
        simp only [exceptIsOk] at ih ⊢
        constructor
        · intro _ c' hc'
          rcases List.mem_cons.mp hc' with h1 | h2
          · rw [h1]; exact hne
          · exact (ih.mp trivial) c' h2
        · intro _
          trivial

/-- **C4 (counterexample).** Run against an empty observation set, the
category `cat` produces one data entry whose single series has **zero
points**, yet the category is **kept** in the output scenario in non-strict
mode and the run also succeeds in strict mode — contradicting the claim
that a category with zero series-with-points is dropped (non-strict) or
fatal (strict). -/
theorem claim4_counterexample_empty_series_kept :
    ((match populateCategories cfgC4 { set := [] } with
      | .ok s => some (s.Categories.map
          (fun c => (c.ID, c.Data.map (fun d => d.Series.map (fun sr => sr.Points)))))
      | .error _ => none) = some [("cat", [[[]]])]) ∧
    (exceptIsOk (populateCategories { cfgC4 with IsStrict := true } { set := [] }) = true) :=
  ⟨rfl, rfl⟩

/-- **C4 (amended).** A configured category is dropped from the output
scenario (non-strict mode) or causes a fatal error (strict mode) precisely
when its assembled data list is empty — that is, exactly when its included
metrics list or its included versions list is empty.  A category whose
series merely contain zero points is kept. -/
theorem claim4_category_dropped_iff_no_data (cfg : Config) (set : BenchmarkSet) :
    (cfg.IsStrict = false →
      populateCategories cfg set = .ok
        { Name := cfg.Name
          Categories := (cfg.Categories.filter
              (fun c => !(buildCategoryData cfg set c).isEmpty)).map (buildCategory cfg set) }) ∧
    (cfg.IsStrict = true →
      (exceptIsOk (populateCategories cfg set) = true ↔
        ∀ c ∈ cfg.Categories, buildCategoryData cfg set c ≠ [])) ∧
    (∀ c : Category, buildCategoryData cfg set c = [] ↔
      (c.Includes.Metrics = [] ∨ c.Includes.Versions = [])) := by
  refine ⟨fun h => ?_, fun h => ?_, fun c => buildCategoryData_eq_nil_iff cfg set c⟩
  · unfold populateCategories
    rw [populateCategoriesLoop_nonstrict cfg set h cfg.Categories]
  · unfold populateCategories
    cases hloop : populateCategoriesLoop cfg set cfg.Categories with
    | error e =>
      have := populateCategoriesLoop_strict_ok_iff cfg set h cfg.Categories
      rw [hloop] at this
      simpa [exceptIsOk] using this
    | ok cats =>
      have := populateCategoriesLoop_strict_ok_iff cfg set h cfg.Categories
      rw [hloop] at this
      simpa [exceptIsOk] using this

/-- **C4 (witness).** The amended policy applied to `cfgC4` (whose single
category has one metric and one version, hence a non-empty data product)
and the empty observation set. -/
theorem claim4_witness :
    populateCategories cfgC4 { set := [] } = .ok
      { Name := cfgC4.Name
        Categories := (cfgC4.Categories.filter
            (fun c => !(buildCategoryData cfgC4 { set := [] } c).isEmpty)).map
          (buildCategory cfgC4 { set := [] }) } :=
  (claim4_category_dropped_iff_no_data cfgC4 { set := [] }).1 rfl

theorem mapLookup_append_none {α : Type} (k : String) (a b : List (String × α))
    (h : mapLookup k a = none) : mapLookup k (a ++ b) = mapLookup k b := by
  induction a with
  | nil => rfl
  | cons p a ih =>
    cases p with
    | mk k' v =>
      by_cases hk : k' = k
      · rw [mapLookup, if_pos hk] at h
        exact Option.noConfusion h
      · rw [mapLookup, if_neg hk] at h
        rw [List.cons_append, mapLookup, if_neg hk]
        exact ih h

theorem mapLookup_append_some {α : Type} (k : String) (a b : List (String × α)) (v : α)
    (h : mapLookup k a = some v) : mapLookup k (a ++ b) = some v := by
  induction a with
  | nil => exact Option.noConfusion h
  | cons p a ih =>
    cases p with
    | mk k' w =>
      by_cases hk : k' = k
      · rw [mapLookup, if_pos hk] at h
        rw [List.cons_append, mapLookup, if_pos hk]
        exact h
      · rw [mapLookup, if_neg hk] at h
        rw [List.cons_append, mapLookup, if_neg hk]
        exact ih h

theorem mapLookup_singleton {α : Type} (k k' : String) (v : α) :
    mapLookup k [(k', v)] = if k' = k then some v else none := rfl

/-- The validation loop over an object collection fails whenever the ids are
not pairwise distinct (or an id is already taken in the accumulated index). -/
theorem validateObjectsLoop_error (kind : String) :
    ∀ (l : List Object) (i : Nat) (idx : List (String × Object)),
    (¬ (l.map Object.ID).Nodup ∨ ∃ o ∈ l, (mapLookup o.ID idx).isSome = true) →
    ∃ e, validateObjectsLoop kind i l idx = .error e := by
  intro l
  induction l with
  | nil =>
    intro i idx h
    rcases h with h | ⟨o, ho, _⟩
    · simp at h
    · exact absurd ho (List.not_mem_nil o)
  | cons v rest ih =>
    intro i idx h
    simp only [validateObjectsLoop]
    by_cases hid : v.ID = ""
    · exact ⟨_, by rw [if_pos hid]⟩
    · rw [if_neg hid]
      by_cases hdup : (mapLookup v.ID idx).isSome = true
      · exact ⟨_, by rw [if_pos hdup]⟩
      · rw [if_neg hdup]
        apply ih
        have hvid : (if v.Title = "" then { v with Title := titleize v.ID } else v).ID = v.ID := by
          split <;> rfl
        have hnonev : mapLookup v.ID idx = none :=
          Option.not_isSome_iff_eq_none.mp (by simpa using hdup)
        rcases h with h | ⟨o, ho, hsome⟩
        · rw [List.map_cons, List.nodup_cons] at h
          by_cases hrest : (rest.map Object.ID).Nodup
          · have hmem : v.ID ∈ rest.map Object.ID := by
              by_contra hnm
              exact h ⟨hnm, hrest⟩
            obtain ⟨o, ho, hoid⟩ := List.mem_map.mp hmem
            refine Or.inr ⟨o, ho, ?_⟩
            rw [hoid, mapLookup_append_none _ _ _ hnonev, mapLookup_singleton, hvid,
              if_pos rfl]
            rfl
          · exact Or.inl hrest
        · rcases List.mem_cons.mp ho with rfl | ho'
          · exact absurd hsome hdup
          · refine Or.inr ⟨o, ho', ?_⟩
            cases hl : mapLookup o.ID idx with
            | some w => rw [mapLookup_append_some _ _ _ _ hl]; rfl
            | none => rw [hl] at hsome; simp at hsome

/-- The validation loop over the metric collection fails whenever the metric
ids are not pairwise distinct (or already taken in the accumulated index). -/
theorem validateMetricsLoop_error :
    ∀ (l : List Metric) (i : Nat) (idx : List (String × Metric)),
    (¬ (l.map Metric.ID).Nodup ∨ ∃ m ∈ l, (mapLookup m.ID idx).isSome = true) →
    ∃ e, validateMetricsLoop i l idx = .error e := by
  intro l
  induction l with
  | nil =>
    intro i idx h
    rcases h with h | ⟨m, hm, _⟩
    · simp at h
    · exact absurd hm (List.not_mem_nil m)
  | cons v rest ih =>
    intro i idx h
    simp only [validateMetricsLoop]
    by_cases hid : v.ID = ""
    · exact ⟨_, by rw [if_pos hid]⟩
    · rw [if_neg hid]
      by_cases hvalid : (!MetricName.IsValid v.ID) = true
      · exact ⟨_, by rw [if_pos hvalid]⟩
      · rw [if_neg hvalid]
        have hvid : (if v.Title = "" then { v with Title := titleize v.ID } else v).ID = v.ID := by
          split <;> rfl
        rw [hvid]
        by_cases hdup : (mapLookup v.ID idx).isSome = true
        · exact ⟨_, by rw [if_pos hdup]⟩
        · rw [if_neg hdup]
          apply ih
          have hnonev : mapLookup v.ID idx = none :=
            Option.not_isSome_iff_eq_none.mp (by simpa using hdup)
          rcases h with h | ⟨m, hm, hsome⟩
          · rw [List.map_cons, List.nodup_cons] at h
            by_cases hrest : (rest.map Metric.ID).Nodup
            · have hmem : v.ID ∈ rest.map Metric.ID := by
                by_contra hnm
                exact h ⟨hnm, hrest⟩
              obtain ⟨m, hm, hmid⟩ := List.mem_map.mp hmem
              refine Or.inr ⟨m, hm, ?_⟩
              rw [hmid, mapLookup_append_none _ _ _ hnonev, mapLookup_singleton, if_pos rfl]
              rfl
            · exact Or.inl hrest
          · rcases List.mem_cons.mp hm with rfl | hm'
            · exact absurd hsome hdup
            · refine Or.inr ⟨m, hm', ?_⟩
              cases hl : mapLookup m.ID idx with
              | some w => rw [mapLookup_append_some _ _ _ _ hl]; rfl
              | none => rw [hl] at hsome; simp at hsome

theorem load_fun_error (compile : String → Except String Rex) (doc : Config) (e : String)
    (h : doc.validateFunctions = .error e) : load compile doc = .error e := by
  unfold load; rw [h]

theorem load_fun_ok (compile : String → Except String Rex) (doc c1 : Config)
    (h : doc.validateFunctions = .ok c1) :
    load compile doc = loadFromContexts compile c1 := by
  unfold load; rw [h]

theorem loadFromContexts_error (compile : String → Except String Rex) (c1 : Config)
    (e : String) (h : c1.validateContexts = .error e) :
    loadFromContexts compile c1 = .error e := by
  unfold loadFromContexts; rw [h]

theorem loadFromContexts_ok (compile : String → Except String Rex) (c1 c2 : Config)
    (h : c1.validateContexts = .ok c2) :
    loadFromContexts compile c1 = loadFromVersions compile c2 := by
  unfold loadFromContexts; rw [h]

theorem loadFromVersions_error (compile : String → Except String Rex) (c2 : Config)
    (e : String) (h : c2.validateVersions = .error e) :
    loadFromVersions compile c2 = .error e := by
  unfold loadFromVersions; rw [h]

theorem loadFromVersions_ok (compile : String → Except String Rex) (c2 c3 : Config)
    (h : c2.validateVersions = .ok c3) :
    loadFromVersions compile c2 = loadFromMetrics compile c3 := by
  unfold loadFromVersions; rw [h]

theorem loadFromMetrics_error (compile : String → Except String Rex) (c3 : Config)
    (e : String) (h : c3.validateMetrics = .error e) :
    loadFromMetrics compile c3 = .error e := by
  unfold loadFromMetrics; rw [h]

theorem loadFromMetrics_ok (compile : String → Except String Rex) (c3 c4 : Config)
    (h : c3.validateMetrics = .ok c4) :
    loadFromMetrics compile c3 = loadFromCategories compile c4 := by
  unfold loadFromMetrics; rw [h]

theorem loadFromCategories_error (compile : String → Except String Rex) (c4 : Config)
    (e : String) (h : c4.validateCategories = .error e) :
    loadFromCategories compile c4 = .error e := by
  unfold loadFromCategories; rw [h]

theorem loadFromCategories_ok (compile : String → Except String Rex) (c4 c5 : Config)
    (h : c4.validateCategories = .ok c5) :
    loadFromCategories compile c4 = c5.validateRegexps compile := by
  unfold loadFromCategories; rw [h]

theorem validateFunctions_ok_eq (c c' : Config) (h : c.validateFunctions = .ok c') :
    ∃ idx, validateObjectsLoop "functions" 0 c.Functions [] = .ok idx ∧
      c' = { c with functionIndex := idx } := by
  unfold Config.validateFunctions at h
  cases hl : validateObjectsLoop "functions" 0 c.Functions [] with
  | error e => rw [hl] at h; simp [Except.map] at h
  | ok idx =>
    rw [hl] at h
    simp only [Except.map, Except.ok.injEq] at h
    exact ⟨idx, rfl, h.symm⟩

theorem validateContexts_ok_eq (c c' : Config) (h : c.validateContexts = .ok c') :
    ∃ idx, validateObjectsLoop "contexts" 0 c.Contexts [] = .ok idx ∧
      c' = { c with contextIndex := idx } := by
  unfold Config.validateContexts at h
  cases hl : validateObjectsLoop "contexts" 0 c.Contexts [] with
  | error e => rw [hl] at h; simp [Except.map] at h
  | ok idx =>
    rw [hl] at h
    simp only [Except.map, Except.ok.injEq] at h
    exact ⟨idx, rfl, h.symm⟩

theorem validateVersions_ok_eq (c c' : Config) (h : c.validateVersions = .ok c') :
    ∃ idx, validateObjectsLoop "versions" 0 c.Versions [] = .ok idx ∧
      c' = { c with versionIndex := idx } := by
  unfold Config.validateVersions at h
  cases hl : validateObjectsLoop "versions" 0 c.Versions [] with
  | error e => rw [hl] at h; simp [Except.map] at h
  | ok idx =>
    rw [hl] at h
    simp only [Except.map, Except.ok.injEq] at h
    exact ⟨idx, rfl, h.symm⟩

theorem validateMetrics_ok_eq (c c' : Config) (h : c.validateMetrics = .ok c') :
    ∃ idx, validateMetricsLoop 0 c.Metrics [] = .ok idx ∧
      c' = { c with metricIndex := idx } := by
  unfold Config.validateMetrics at h
  cases hl : validateMetricsLoop 0 c.Metrics [] with
  | error e => rw [hl] at h; simp [Except.map] at h
  | ok idx =>
    rw [hl] at h
    simp only [Except.map, Except.ok.injEq] at h
    exact ⟨idx, rfl, h.symm⟩

theorem validateFunctions_error_of_dup (c : Config)
    (h : ¬ (c.Functions.map Object.ID).Nodup) : ∃ e, c.validateFunctions = .error e := by
  obtain ⟨e, he⟩ := validateObjectsLoop_error "functions" c.Functions 0 [] (Or.inl h)
  exact ⟨e, by unfold Config.validateFunctions; rw [he]; rfl⟩

theorem validateContexts_error_of_dup (c : Config)
    (h : ¬ (c.Contexts.map Object.ID).Nodup) : ∃ e, c.validateContexts = .error e := by
  obtain ⟨e, he⟩ := validateObjectsLoop_error "contexts" c.Contexts 0 [] (Or.inl h)
  exact ⟨e, by unfold Config.validateContexts; rw [he]; rfl⟩

theorem validateVersions_error_of_dup (c : Config)
    (h : ¬ (c.Versions.map Object.ID).Nodup) : ∃ e, c.validateVersions = .error e := by
  obtain ⟨e, he⟩ := validateObjectsLoop_error "versions" c.Versions 0 [] (Or.inl h)
  exact ⟨e, by unfold Config.validateVersions; rw [he]; rfl⟩

theorem validateMetrics_error_of_dup (c : Config)
    (h : ¬ (c.Metrics.map Metric.ID).Nodup) : ∃ e, c.validateMetrics = .error e := by
  obtain ⟨e, he⟩ := validateMetricsLoop_error c.Metrics 0 [] (Or.inl h)
  exact ⟨e, by unfold Config.validateMetrics; rw [he]; rfl⟩

/-- **C5 (counterexample).** A document with two categories sharing the id
`"a"` loads **successfully**: the category validator has no duplicate-id
check, so the claim fails for the categories collection. -/
theorem claim5_counterexample_dup_categories_accepted :
    (docDupCat.Categories.map Category.ID = ["a", "a"]) ∧
    (exceptIsOk (load compileAlways docDupCat) = true) :=
  ⟨rfl, rfl⟩

/-- **C5 (amended).** Load rejects, with an error and no rule store, every
document containing two entries with the same id within any one of the
functions, contexts, versions or metrics collections.  (Duplicate ids among
categories are *not* rejected — see the counterexample.) -/
theorem claim5_duplicate_id_rejected (compile : String → Except String Rex) (doc : Config)
    (h : ¬ (doc.Functions.map Object.ID).Nodup ∨ ¬ (doc.Contexts.map Object.ID).Nodup ∨
      ¬ (doc.Versions.map Object.ID).Nodup ∨ ¬ (doc.Metrics.map Metric.ID).Nodup) :
    exceptIsOk (load compile doc) = false := by
  rcases h with h | h | h | h
  · obtain ⟨e, he⟩ := validateFunctions_error_of_dup doc h
    rw [load_fun_error compile doc e he]
    rfl
  · cases hf : doc.validateFunctions with
    | error e => rw [load_fun_error compile doc e hf]; rfl
    | ok c1 =>
      obtain ⟨idx, _, hc1⟩ := validateFunctions_ok_eq doc c1 hf
      obtain ⟨e, he⟩ := validateContexts_error_of_dup c1 (by rw [hc1]; exact h)
      rw [load_fun_ok compile doc c1 hf, loadFromContexts_error compile c1 e he]
      rfl
  · cases hf : doc.validateFunctions with
    | error e => rw [load_fun_error compile doc e hf]; rfl
    | ok c1 =>
      obtain ⟨idx1, _, hc1⟩ := validateFunctions_ok_eq doc c1 hf
      rw [load_fun_ok compile doc c1 hf]
      cases hcx : c1.validateContexts with
      | error e => rw [loadFromContexts_error compile c1 e hcx]; rfl
      | ok c2 =>
        obtain ⟨idx2, _, hc2⟩ := validateContexts_ok_eq c1 c2 hcx
        obtain ⟨e, he⟩ := validateVersions_error_of_dup c2 (by rw [hc2, hc1]; exact h)
        rw [loadFromContexts_ok compile c1 c2 hcx, loadFromVersions_error compile c2 e he]
        rfl
  · cases hf : doc.validateFunctions with
    | error e => rw [load_fun_error compile doc e hf]; rfl
    | ok c1 =>
      obtain ⟨idx1, _, hc1⟩ := validateFunctions_ok_eq doc c1 hf
      rw [load_fun_ok compile doc c1 hf]
      cases hcx : c1.validateContexts with
      | error e => rw [loadFromContexts_error compile c1 e hcx]; rfl
      | ok c2 =>
        obtain ⟨idx2, _, hc2⟩ := validateContexts_ok_eq c1 c2 hcx
        rw [loadFromContexts_ok compile c1 c2 hcx]
        cases hv : c2.validateVersions with
        | error e => rw [loadFromVersions_error compile c2 e hv]; rfl
        | ok c3 =>
          obtain ⟨idx3, _, hc3⟩ := validateVersions_ok_eq c2 c3 hv
          obtain ⟨e, he⟩ := validateMetrics_error_of_dup c3 (by rw [hc3, hc2, hc1]; exact h)
          rw [loadFromVersions_ok compile c2 c3 hv, loadFromMetrics_error compile c3 e he]
          rfl

/-- **C5 (witness).** The amended rejection applied to a concrete document
with a duplicated function id. -/
theorem claim5_witness : exceptIsOk (load compileAlways docDupFun) = false :=
  claim5_duplicate_id_rejected compileAlways docDupFun (Or.inl (by decide))

theorem validateCategoryMetrics_ok (c : Config) (includes : Includes) (v v' : Category)
    (h : validateCategoryMetrics c includes v = .ok v') : v' = v := by
  unfold validateCategoryMetrics at h
  split at h
  · exact Except.noConfusion h
  · split at h
    · exact Except.noConfusion h
    · injection h with h'
      exact h'.symm

theorem validateCategoryVersions_ok (c : Config) (includes : Includes) (v v' : Category)
    (h : validateCategoryVersions c includes v = .ok v') :
    v' = expandVersionsLayer c includes v := by
  unfold validateCategoryVersions at h
  split at h
  · exact Except.noConfusion h
  · exact validateCategoryMetrics_ok c includes _ v' h

theorem validateCategoryContexts_ok (c : Config) (includes : Includes) (v v' : Category)
    (h : validateCategoryContexts c includes v = .ok v') :
    v' = expandVersionsLayer c includes (expandContextsLayer c includes v) := by
  unfold validateCategoryContexts at h
  split at h
  · exact Except.noConfusion h
  · exact validateCategoryVersions_ok c includes _ v' h

theorem validateCategoryFunctions_ok (c : Config) (includes : Includes) (v v' : Category)
    (h : validateCategoryFunctions c includes v = .ok v') :
    v' = expandVersionsLayer c includes
      (expandContextsLayer c includes (expandFunctionsLayer c includes v)) := by
  unfold validateCategoryFunctions at h
  split at h
  · exact Except.noConfusion h
  · exact validateCategoryContexts_ok c includes _ v' h

theorem titledCategory_includes (v : Category) : (titledCategory v).Includes = v.Includes := by
  unfold titledCategory
  split <;> rfl

theorem expandFunctionsLayer_keeps_contexts (c : Config) (includes : Includes) (v : Category) :
    (expandFunctionsLayer c includes v).Includes.Contexts = v.Includes.Contexts := by
  unfold expandFunctionsLayer; split <;> rfl

theorem expandFunctionsLayer_keeps_versions (c : Config) (includes : Includes) (v : Category) :
    (expandFunctionsLayer c includes v).Includes.Versions = v.Includes.Versions := by
  unfold expandFunctionsLayer; split <;> rfl

theorem expandContextsLayer_keeps_functions (c : Config) (includes : Includes) (v : Category) :
    (expandContextsLayer c includes v).Includes.Functions = v.Includes.Functions := by
  unfold expandContextsLayer; split <;> rfl

theorem expandContextsLayer_keeps_versions (c : Config) (includes : Includes) (v : Category) :
    (expandContextsLayer c includes v).Includes.Versions = v.Includes.Versions := by
  unfold expandContextsLayer; split <;> rfl

theorem expandVersionsLayer_keeps_functions (c : Config) (includes : Includes) (v : Category) :
    (expandVersionsLayer c includes v).Includes.Functions = v.Includes.Functions := by
  unfold expandVersionsLayer; split <;> rfl

theorem expandVersionsLayer_keeps_contexts (c : Config) (includes : Includes) (v : Category) :
    (expandVersionsLayer c includes v).Includes.Contexts = v.Includes.Contexts := by
  unfold expandVersionsLayer; split <;> rfl

theorem expandFunctionsLayer_functions (c : Config) (includes : Includes) (v : Category)
    (he : includes.Functions = []) :
    (expandFunctionsLayer c includes v).Includes.Functions =
      v.Includes.Functions ++ c.Functions.map Object.ID := by
  unfold expandFunctionsLayer
  rw [he]
  rfl

theorem expandContextsLayer_contexts (c : Config) (includes : Includes) (v : Category)
    (he : includes.Contexts = []) :
    (expandContextsLayer c includes v).Includes.Contexts =
      v.Includes.Contexts ++ c.Contexts.map Object.ID := by
  unfold expandContextsLayer
  rw [he]
  rfl

theorem expandVersionsLayer_versions (c : Config) (includes : Includes) (v : Category)
    (he : includes.Versions = []) :
    (expandVersionsLayer c includes v).Includes.Versions =
      v.Includes.Versions ++ c.Versions.map Object.ID := by
  unfold expandVersionsLayer
  rw [he]
  rfl

/-- The default-inclusion expansions performed by a successful
`validateCategory`: an empty include list comes out as the full ordered id
list of the corresponding collection. -/
theorem validateCategory_ok_expansion (c : Config) (v v' : Category) (i : Nat)
    (h : c.validateCategory v i = .ok v') :
    (v.Includes.Functions = [] → v'.Includes.Functions = c.Functions.map Object.ID) ∧
    (v.Includes.Contexts = [] → v'.Includes.Contexts = c.Contexts.map Object.ID) ∧
    (v.Includes.Versions = [] → v'.Includes.Versions = c.Versions.map Object.ID) := by
  unfold Config.validateCategory at h
  split at h
  · exact Except.noConfusion h
  · have hv' := validateCategoryFunctions_ok c (titledCategory v).Includes (titledCategory v)
      v' h
    refine ⟨fun he => ?_, fun he => ?_, fun he => ?_⟩
    · rw [hv', expandVersionsLayer_keeps_functions, expandContextsLayer_keeps_functions,
        expandFunctionsLayer_functions c _ _ (by rw [titledCategory_includes]; exact he),
        titledCategory_includes, he]
      rfl
    · rw [hv', expandVersionsLayer_keeps_contexts,
        expandContextsLayer_contexts c _ _ (by rw [titledCategory_includes]; exact he),
        expandFunctionsLayer_keeps_contexts, titledCategory_includes, he]
      rfl
    · rw [hv', expandVersionsLayer_versions c _ _ (by rw [titledCategory_includes]; exact he),
        expandContextsLayer_keeps_versions, expandFunctionsLayer_keeps_versions,
        titledCategory_includes, he]
      rfl

theorem validateCategoriesLoop_ok (c : Config) :
    ∀ (cats : List Category) (i : Nat) (cats' : List Category),
    Config.validateCategoriesLoop c i cats = .ok cats' →
    cats'.length = cats.length ∧
    (∀ j cat0 cat1, cats.get? j = some cat0 → cats'.get? j = some cat1 →
      ∃ k, c.validateCategory cat0 k = .ok cat1) := by
  intro cats
  induction cats with
  | nil =>
    intro i cats' h
    simp only [Config.validateCategoriesLoop] at h
    injection h with h'
    refine ⟨by rw [← h'], ?_⟩
    intro j cat0 cat1 h0 _
    rw [List.get?_eq_none.mpr (by simp)] at h0
    exact Option.noConfusion h0
  | cons v rest ih =>
    intro i cats' h
    simp only [Config.validateCategoriesLoop] at h
    split at h
    · exact Except.noConfusion h
    · rename_i v' hv'
      split at h
      · exact Except.noConfusion h
      · rename_i rest' hrest'
        injection h with h'
        obtain ⟨hlen, hall⟩ := ih (i + 1) rest' hrest'
        refine ⟨by rw [← h']; simp [hlen], ?_⟩
        intro j cat0 cat1 h0 h1
        rw [← h'] at h1
        cases j with
        | zero =>
          simp only [List.get?] at h0 h1
          injection h0 with h0
          injection h1 with h1
          exact ⟨i, by rw [← h0, ← h1]; exact hv'⟩
        | succ j =>
          simp only [List.get?] at h0 h1
          exact hall j cat0 cat1 h0 h1

theorem validateCategories_ok_eq (c c' : Config) (h : c.validateCategories = .ok c') :
    ∃ cats', Config.validateCategoriesLoop c 0 c.Categories = .ok cats' ∧
      c' = { c with Categories := cats' } := by
  unfold Config.validateCategories at h
  cases hl : Config.validateCategoriesLoop c 0 c.Categories with
  | error e => rw [hl] at h; simp [Except.map] at h
  | ok cats' =>
    rw [hl] at h
    simp only [Except.map, Except.ok.injEq] at h
    exact ⟨cats', rfl, h.symm⟩

theorem validateRegexps_ok_eq (compile : String → Except String Rex) (c c' : Config)
    (h : c.validateRegexps compile = .ok c') :
    ∃ fns ctxs vers fls,
      compileObjects compile "function" 0 c.Functions = .ok fns ∧
      compileObjects compile "context" 0 c.Contexts = .ok ctxs ∧
      compileObjects compile "version" 0 c.Versions = .ok vers ∧
      compileFiles compile c 0 c.Files = .ok fls ∧
      c' = { c with Functions := fns, Contexts := ctxs, Versions := vers, Files := fls } := by
  unfold Config.validateRegexps at h
  split at h
  · exact Except.noConfusion h
  · rename_i fns hfns
    unfold validateRegexpsContexts at h
    split at h
    · exact Except.noConfusion h
    · rename_i ctxs hctxs
      unfold validateRegexpsVersions at h
      split at h
      · exact Except.noConfusion h
      · rename_i vers hvers
        unfold validateRegexpsFiles at h
        split at h
        · exact Except.noConfusion h
        · rename_i fls hfls
          injection h with h'
          exact ⟨fns, ctxs, vers, fls, hfns, hctxs, hvers, hfls, h'.symm⟩

/-- **C6.** In a successfully loaded document, the output rule store has one
category per declared category (same positions), and every category whose
declared `includes.functions` (resp. `includes.versions`, `includes.contexts`)
list was empty comes out with that list equal to the full list of ids of all
defined rules of that kind, in declaration order. -/
theorem claim6_empty_includes_expand_to_all (compile : String → Except String Rex)
    (doc cfg : Config) (h : load compile doc = .ok cfg) :
    cfg.Categories.length = doc.Categories.length ∧
    (∀ i cat0 cat1, doc.Categories.get? i = some cat0 → cfg.Categories.get? i = some cat1 →
      (cat0.Includes.Functions = [] → cat1.Includes.Functions = doc.Functions.map Object.ID) ∧
      (cat0.Includes.Contexts = [] → cat1.Includes.Contexts = doc.Contexts.map Object.ID) ∧
      (cat0.Includes.Versions = [] → cat1.Includes.Versions = doc.Versions.map Object.ID)) := by
  cases hf : doc.validateFunctions with
  | error e => rw [load_fun_error compile doc e hf] at h; exact Except.noConfusion h
  | ok c1 =>
  rw [load_fun_ok compile doc c1 hf] at h
  cases hcx : c1.validateContexts with
  | error e => rw [loadFromContexts_error compile c1 e hcx] at h; exact Except.noConfusion h
  | ok c2 =>
  rw [loadFromContexts_ok compile c1 c2 hcx] at h
  cases hv : c2.validateVersions with
  | error e => rw [loadFromVersions_error compile c2 e hv] at h; exact Except.noConfusion h
  | ok c3 =>
  rw [loadFromVersions_ok compile c2 c3 hv] at h
  cases hm : c3.validateMetrics with
  | error e => rw [loadFromMetrics_error compile c3 e hm] at h; exact Except.noConfusion h
  | ok c4 =>
  rw [loadFromMetrics_ok compile c3 c4 hm] at h
  cases hcat : c4.validateCategories with
  | error e => rw [loadFromCategories_error compile c4 e hcat] at h; exact Except.noConfusion h
  | ok c5 =>
  rw [loadFromCategories_ok compile c4 c5 hcat] at h
  obtain ⟨idx1, _, hc1⟩ := validateFunctions_ok_eq doc c1 hf
  obtain ⟨idx2, _, hc2⟩ := validateContexts_ok_eq c1 c2 hcx
  obtain ⟨idx3, _, hc3⟩ := validateVersions_ok_eq c2 c3 hv
  obtain ⟨idx4, _, hc4⟩ := validateMetrics_ok_eq c3 c4 hm
  obtain ⟨cats', hloop, hc5⟩ := validateCategories_ok_eq c4 c5 hcat
  obtain ⟨fns, ctxs, vers, fls, _, _, _, _, hcfg⟩ := validateRegexps_ok_eq compile c5 cfg h
  have hcats : cfg.Categories = cats' := by rw [hcfg, hc5]
  have hdocCats : c4.Categories = doc.Categories := by rw [hc4, hc3, hc2, hc1]
  have hdocF : c4.Functions = doc.Functions := by rw [hc4, hc3, hc2, hc1]
  have hdocC : c4.Contexts = doc.Contexts := by rw [hc4, hc3, hc2, hc1]
  have hdocV : c4.Versions = doc.Versions := by rw [hc4, hc3, hc2, hc1]
  rw [hdocCats] at hloop
  obtain ⟨hlen, hall⟩ := validateCategoriesLoop_ok c4 doc.Categories 0 cats' hloop
  constructor
  · rw [hcats]; exact hlen
  · intro i cat0 cat1 h0 h1
    rw [hcats] at h1
    obtain ⟨k, hk⟩ := hall i cat0 cat1 h0 h1
    obtain ⟨e1, e2, e3⟩ := validateCategory_ok_expansion c4 cat0 cat1 k hk
    exact ⟨fun he => by rw [e1 he, hdocF], fun he => by rw [e2 he, hdocC],
      fun he => by rw [e3 he, hdocV]⟩

/-- **C6 (witness).** Loading `docC6` succeeds, and its category's empty
functions list is expanded to the full ordered function id list
`["f1", "f2"]`. -/
theorem claim6_witness :
    (load compileAlways docC6 = .ok cfgC6) ∧
    (catC6.Includes.Functions = docC6.Functions.map Object.ID) ∧
    (docC6.Functions.map Object.ID = ["f1", "f2"]) := by
  refine ⟨rfl, ?_, rfl⟩
  have h := (claim6_empty_includes_expand_to_all compileAlways docC6 cfgC6 rfl).2 0
    (docC6.Categories.headD {}) catC6 rfl rfl
  exact h.1 rfl

theorem parseBenchmarkName_none (cfg : Config) (name file env : String)
    (hn : (cfg.FindFunction name).2 = false) :
    cfg.parseBenchmarkName name file env = none := by
  simp [Config.parseBenchmarkName, hn]

theorem benchContrib_none (cfg : Config) (file env : String) (b : Benchmark)
    (hn : (cfg.FindFunction b.Name).2 = false) : benchContrib cfg file env b = [] := by
  unfold benchContrib
  rw [parseBenchmarkName_none cfg b.Name file env hn]

theorem processBench_nonstrict (cfg : Config) (file env : String) (b : Benchmark)
    (acc : List ParsedBenchmark) (h : cfg.IsStrict = false) :
    processBench cfg file env b acc = .ok (acc ++ benchContrib cfg file env b) := by
  cases hp : cfg.parseBenchmarkName b.Name file env with
  | none =>
    unfold processBench benchContrib
    rw [hp, h]
    simp
  | some parsed =>
    have hres := processBench_classified cfg file env b acc parsed hp (Or.inl h)
    rw [hres]
    unfold benchContrib
    rw [hp]

theorem processBenches_cons (cfg : Config) (file env : String) (b : Benchmark)
    (rest : List Benchmark) (acc out : List ParsedBenchmark)
    (h : processBench cfg file env b acc = .ok out) :
    processBenches cfg file env (b :: rest) acc = processBenches cfg file env rest out := by
  simp only [processBenches]
  rw [h]

theorem processBenches_cons_error (cfg : Config) (file env : String) (b : Benchmark)
    (rest : List Benchmark) (acc : List ParsedBenchmark) (e : String)
    (h : processBench cfg file env b acc = .error e) :
    processBenches cfg file env (b :: rest) acc = .error e := by
  simp only [processBenches]
  rw [h]

theorem processGroups_cons (cfg : Config) (file env : String) (g : List Benchmark)
    (rest : List (List Benchmark)) (acc out : List ParsedBenchmark)
    (h : processBenches cfg file env g acc = .ok out) :
    processGroups cfg file env (g :: rest) acc = processGroups cfg file env rest out := by
  simp only [processGroups]
  rw [h]

theorem processGroups_cons_error (cfg : Config) (file env : String) (g : List Benchmark)
    (rest : List (List Benchmark)) (acc : List ParsedBenchmark) (e : String)
    (h : processBenches cfg file env g acc = .error e) :
    processGroups cfg file env (g :: rest) acc = .error e := by
  simp only [processGroups]
  rw [h]

theorem processSets_cons (cfg : Config) (s : ParserSet) (rest : List ParserSet)
    (acc out : List ParsedBenchmark)
    (h : processGroups cfg s.File s.Environment s.set acc = .ok out) :
    processSets cfg (s :: rest) acc = processSets cfg rest out := by
  simp only [processSets]
  rw [h]

theorem processSets_cons_error (cfg : Config) (s : ParserSet) (rest : List ParserSet)
    (acc : List ParsedBenchmark) (e : String)
    (h : processGroups cfg s.File s.Environment s.set acc = .error e) :
    processSets cfg (s :: rest) acc = .error e := by
  simp only [processSets]
  rw [h]

theorem processBenches_nonstrict (cfg : Config) (file env : String)
    (h : cfg.IsStrict = false) :
    ∀ (bs : List Benchmark) (acc : List ParsedBenchmark),
    processBenches cfg file env bs acc =
      .ok (acc ++ bs.flatMap (benchContrib cfg file env)) := by
  intro bs
  induction bs with
  | nil => intro acc; simp [processBenches]
  | cons b rest ih =>
    intro acc
    rw [processBenches_cons cfg file env b rest acc _
      (processBench_nonstrict cfg file env b acc h), ih]
    simp

theorem processGroups_nonstrict (cfg : Config) (file env : String)
    (h : cfg.IsStrict = false) :
    ∀ (gs : List (List Benchmark)) (acc : List ParsedBenchmark),
    processGroups cfg file env gs acc =
      .ok (acc ++ gs.flatMap (fun g => g.flatMap (benchContrib cfg file env))) := by
  intro gs
  induction gs with
  | nil => intro acc; simp [processGroups]
  | cons g rest ih =>
    intro acc
    rw [processGroups_cons cfg file env g rest acc _ (processBenches_nonstrict cfg file env h g acc),
      ih]
    simp

theorem processSets_nonstrict (cfg : Config) (h : cfg.IsStrict = false) :
    ∀ (sets : List ParserSet) (acc : List ParsedBenchmark),
    processSets cfg sets acc = .ok (acc ++ sets.flatMap (setContrib cfg)) := by
  intro sets
  induction sets with
  | nil => intro acc; simp [processSets]
  | cons s rest ih =>
    intro acc
    rw [processSets_cons cfg s rest acc _
      (processGroups_nonstrict cfg s.File s.Environment h s.set acc), ih]
    simp [setContrib]

theorem parseBenchmarks_nonstrict (cfg : Config) (sets : List ParserSet)
    (h : cfg.IsStrict = false) :
    parseBenchmarks cfg sets = .ok { set := sets.flatMap (setContrib cfg) } := by
  unfold parseBenchmarks
  rw [processSets_nonstrict cfg h sets [], h]
  simp

theorem processBench_strict_unmatched (cfg : Config) (file env : String) (b : Benchmark)
    (acc : List ParsedBenchmark) (hs : cfg.IsStrict = true)
    (hn : (cfg.FindFunction b.Name).2 = false) :
    ∃ e, processBench cfg file env b acc = .error e := by
  unfold processBench
  rw [parseBenchmarkName_none cfg b.Name file env hn, hs]
  exact ⟨_, rfl⟩

theorem processBenches_strict_mem (cfg : Config) (file env : String) (b : Benchmark)
    (hs : cfg.IsStrict = true) (hn : (cfg.FindFunction b.Name).2 = false) :
    ∀ (bs : List Benchmark) (acc : List ParsedBenchmark), b ∈ bs →
    ∃ e, processBenches cfg file env bs acc = .error e := by
  intro bs
  induction bs with
  | nil => intro acc hmem; exact absurd hmem (List.not_mem_nil b)
  | cons x rest ih =>
    intro acc hmem
    rcases List.mem_cons.mp hmem with hb | hmem'
    · obtain ⟨e, he⟩ := processBench_strict_unmatched cfg file env b acc hs hn
      exact ⟨e, by rw [hb] at he; exact processBenches_cons_error cfg file env x rest acc e he⟩
    · cases hx : processBench cfg file env x acc with
      | error e => exact ⟨e, processBenches_cons_error cfg file env x rest acc e hx⟩
      | ok out =>
        obtain ⟨e, he⟩ := ih out hmem'
        exact ⟨e, by rw [processBenches_cons cfg file env x rest acc out hx]; exact he⟩

theorem processGroups_strict_mem (cfg : Config) (file env : String) (b : Benchmark)
    (hs : cfg.IsStrict = true) (hn : (cfg.FindFunction b.Name).2 = false) :
    ∀ (gs : List (List Benchmark)) (acc : List ParsedBenchmark),
    (∃ g ∈ gs, b ∈ g) →
    ∃ e, processGroups cfg file env gs acc = .error e := by
  intro gs
  induction gs with
  | nil =>
    intro acc hmem
    obtain ⟨g, hg, _⟩ := hmem
    exact absurd hg (List.not_mem_nil g)
  | cons g rest ih =>
    intro acc hmem
    obtain ⟨g', hg', hbg⟩ := hmem
    rcases List.mem_cons.mp hg' with hgg | hmem'
    · obtain ⟨e, he⟩ := processBenches_strict_mem cfg file env b hs hn g acc (hgg ▸ hbg)
      exact ⟨e, processGroups_cons_error cfg file env g rest acc e he⟩
    · cases hx : processBenches cfg file env g acc with
      | error e => exact ⟨e, processGroups_cons_error cfg file env g rest acc e hx⟩
      | ok out =>
        obtain ⟨e, he⟩ := ih out ⟨g', hmem', hbg⟩
        exact ⟨e, by rw [processGroups_cons cfg file env g rest acc out hx]; exact he⟩

theorem processSets_strict_mem (cfg : Config) (b : Benchmark)
    (hs : cfg.IsStrict = true) (hn : (cfg.FindFunction b.Name).2 = false) :
    ∀ (sets : List ParserSet) (acc : List ParsedBenchmark), b ∈ allRecords sets →
    ∃ e, processSets cfg sets acc = .error e := by
  intro sets
  induction sets with
  | nil =>
    intro acc hmem
    simp [allRecords] at hmem
  | cons s rest ih =>
    intro acc hmem
    rw [allRecords, List.flatMap_cons, List.mem_append] at hmem
    rcases hmem with hmem | hmem
    · rw [List.mem_flatMap] at hmem
      obtain ⟨g, hg, hbg⟩ := hmem
      obtain ⟨e, he⟩ := processGroups_strict_mem cfg s.File s.Environment b hs hn s.set acc
        ⟨g, hg, hbg⟩
      exact ⟨e, processSets_cons_error cfg s rest acc e he⟩
    · cases hx : processGroups cfg s.File s.Environment s.set acc with
      | error e => exact ⟨e, processSets_cons_error cfg s rest acc e hx⟩
      | ok out =>
        obtain ⟨e, he⟩ := ih out hmem
        exact ⟨e, by rw [processSets_cons cfg s rest acc out hx]; exact he⟩

/-- **C7.** A raw record whose name is matched by no function rule is
discarded: processing it leaves the observation accumulator unchanged
(conjunct 1), the non-strict pipeline always succeeds (conjunct 2), and
removing such a record from any input batch leaves the entire output
scenario unchanged — it contributes no point to any series (conjunct 3);
in strict mode the pipeline aborts with an error whenever such a record is
present (conjunct 4). -/
theorem claim7_unmatched_record_dropped (cfg : Config) (b : Benchmark)
    (hn : (cfg.FindFunction b.Name).2 = false) :
    (∀ file env acc, cfg.IsStrict = false → processBench cfg file env b acc = .ok acc) ∧
    (∀ sets, cfg.IsStrict = false → exceptIsOk (parseBenchmarks cfg sets) = true) ∧
    (∀ (pre post : List ParserSet) (s : ParserSet) (gpre gpost : List (List Benchmark))
        (bs1 bs2 : List Benchmark), cfg.IsStrict = false →
      Scenarize cfg (pre ++ { s with set := gpre ++ (bs1 ++ b :: bs2) :: gpost } :: post) =
      Scenarize cfg (pre ++ { s with set := gpre ++ (bs1 ++ bs2) :: gpost } :: post)) ∧
    (∀ sets, cfg.IsStrict = true → b ∈ allRecords sets →
      exceptIsOk (parseBenchmarks cfg sets) = false) := by
  refine ⟨fun file env acc h => ?_, fun sets h => ?_,
    fun pre post s gpre gpost bs1 bs2 h => ?_, fun sets h hmem => ?_⟩
  · rw [processBench_nonstrict cfg file env b acc h, benchContrib_none cfg file env b hn]
    simp
  · rw [parseBenchmarks_nonstrict cfg sets h]
    rfl
  · unfold Scenarize
    rw [parseBenchmarks_nonstrict cfg _ h, parseBenchmarks_nonstrict cfg _ h]
    have : (pre ++ { s with set := gpre ++ (bs1 ++ b :: bs2) :: gpost } :: post).flatMap
        (setContrib cfg) =
        (pre ++ { s with set := gpre ++ (bs1 ++ bs2) :: gpost } :: post).flatMap
        (setContrib cfg) := by
      simp [setContrib, benchContrib_none cfg s.File s.Environment b hn]
    rw [this]
  · obtain ⟨e, he⟩ := processSets_strict_mem cfg b h hn sets [] hmem
    unfold parseBenchmarks
    rw [he]
    rfl

/-- **C7 (witness).** The concrete record `b7` is dropped by `cfg7`: its
processing leaves the accumulator empty, the non-strict pipeline succeeds
on a batch containing it, and the strict pipeline fails on the same
batch. -/
theorem claim7_witness :
    (processBench cfg7 "bench.txt" "" b7 [] = .ok []) ∧
    (exceptIsOk (parseBenchmarks cfg7
      [{ set := [[b7]], File := "bench.txt", Environment := "" }]) = true) ∧
    (exceptIsOk (parseBenchmarks cfg7strict
      [{ set := [[b7]], File := "bench.txt", Environment := "" }]) = false) := by
  have h := claim7_unmatched_record_dropped cfg7 b7 rfl
  have hs := claim7_unmatched_record_dropped cfg7strict b7 rfl
  exact ⟨h.1 "bench.txt" "" [] rfl, h.2.1 _ rfl, hs.2.2.2 _ rfl (by simp [allRecords])⟩

theorem list_if_isEmpty {α : Type} (l : List α) :
    (if l.isEmpty = true then ([] : List α) else l) = l := by
  cases l <;> rfl

theorem genFunctions_cons_seen (n : String) (rest seen : List String)
    (h : benchNameToID n ∈ seen) :
    genFunctions (n :: rest) seen = genFunctions rest seen := by
  simp only [genFunctions]
  rw [if_pos h]

theorem genFunctions_cons_new (n : String) (rest seen : List String)
    (h : benchNameToID n ∉ seen) :
    genFunctions (n :: rest) seen =
      { ID := benchNameToID n, Title := titleize (benchNameToID n), Match := quoteMeta n,
        NotMatch := "", matchRex := none, notMatchRex := none } ::
        genFunctions rest (benchNameToID n :: seen) := by
  simp only [genFunctions]
  rw [if_neg h]

theorem genFunctions_mem :
    ∀ (names seen : List String) (f : Function), f ∈ genFunctions names seen →
    ∃ n, n ∈ names ∧ f.ID = benchNameToID n ∧ f.Match = quoteMeta n ∧ f.NotMatch = "" := by
  intro names
  induction names with
  | nil => intro seen f hf; exact absurd hf (List.not_mem_nil f)
  | cons n rest ih =>
    intro seen f hf
    by_cases hid : benchNameToID n ∈ seen
    · rw [genFunctions_cons_seen n rest seen hid] at hf
      obtain ⟨n', h1, h2⟩ := ih seen f hf
      exact ⟨n', List.mem_cons_of_mem n h1, h2⟩
    · rw [genFunctions_cons_new n rest seen hid] at hf
      rcases List.mem_cons.mp hf with hf | hf
      · exact ⟨n, List.mem_cons_self n rest, by rw [hf], by rw [hf], by rw [hf]⟩
      · obtain ⟨n', h1, h2⟩ := ih (benchNameToID n :: seen) f hf
        exact ⟨n', List.mem_cons_of_mem n h1, h2⟩

theorem genFunctions_ids_nodup :
    ∀ (names seen : List String),
      ((genFunctions names seen).map Object.ID).Nodup ∧
      (∀ id ∈ (genFunctions names seen).map Object.ID, id ∉ seen) := by
  intro names
  induction names with
  | nil => intro seen; exact ⟨List.nodup_nil, by simp [genFunctions]⟩
  | cons n rest ih =>
    intro seen
    by_cases hid : benchNameToID n ∈ seen
    · rw [genFunctions_cons_seen n rest seen hid]
      exact ih seen
    · rw [genFunctions_cons_new n rest seen hid]
      obtain ⟨hnd, hdisj⟩ := ih (benchNameToID n :: seen)
      rw [List.map_cons]
      constructor
      · rw [List.nodup_cons]
        exact ⟨fun hmem => hdisj _ hmem (List.mem_cons_self _ _), hnd⟩
      · intro id hmem2
        rcases List.mem_cons.mp hmem2 with h0 | h0
        · rw [h0]; exact hid
        · exact fun hinseen => hdisj id h0 (List.mem_cons_of_mem _ hinseen)

theorem genFunctions_length :
    ∀ (names seen : List String),
      (genFunctions names seen).length =
        ((names.map benchNameToID).toFinset \ seen.toFinset).card := by
  intro names
  induction names with
  | nil => intro seen; simp [genFunctions]
  | cons n rest ih =>
    intro seen
    by_cases hid : benchNameToID n ∈ seen
    · rw [genFunctions_cons_seen n rest seen hid, ih seen, List.map_cons, List.toFinset_cons]
      rw [Finset.insert_sdiff_of_mem _ (List.mem_toFinset.mpr hid)]
    · rw [genFunctions_cons_new n rest seen hid, List.length_cons,
        ih (benchNameToID n :: seen), List.map_cons, List.toFinset_cons, List.toFinset_cons]
      have ha : benchNameToID n ∉ seen.toFinset := fun hcontra => hid (List.mem_toFinset.mp hcontra)
      rw [Finset.insert_sdiff_of_not_mem _ ha, Finset.sdiff_insert]
      by_cases hmem : benchNameToID n ∈ (rest.map benchNameToID).toFinset \ seen.toFinset
      · rw [Finset.card_erase_of_mem hmem, Finset.insert_eq_self.mpr hmem]
        have hpos : 0 < ((rest.map benchNameToID).toFinset \ seen.toFinset).card :=
          Finset.card_pos.mpr ⟨_, hmem⟩
        omega
      · rw [Finset.erase_eq_of_not_mem hmem, Finset.card_insert_of_not_mem hmem]

theorem stripObject_id (o : Object) : (stripObject o).ID = o.ID := rfl

theorem generatedMetric_id (name : MetricName) : (generatedMetric name).ID = name := by
  unfold generatedMetric
  cases h : defaultConfigDoc.Metrics.find? (fun m => m.ID = name) with
  | none => rfl
  | some dm =>
    have := List.find?_some h
    simpa using this

theorem metricName_isValid_ne_empty (m : MetricName) (h : MetricName.IsValid m = true) :
    m ≠ "" := by
  intro he
  rw [he] at h
  exact absurd h (by decide)

theorem firstMissingRef_none {α : Type} (idx : List (String × α)) :
    ∀ (refs : List String), (∀ r ∈ refs, (mapLookup r idx).isSome = true) →
    firstMissingRef idx refs = none := by
  intro refs
  induction refs with
  | nil => intro _; rfl
  | cons r rest ih =>
    intro h
    unfold firstMissingRef
    rw [if_pos (h r (List.mem_cons_self r rest))]
    exact ih (fun r' hr' => h r' (List.mem_cons_of_mem r hr'))

theorem validateObjectsLoop_ok (kind : String) :
    ∀ (l : List Object) (i : Nat) (idx : List (String × Object)),
    (∀ o ∈ l, o.ID ≠ "") → ((l.map Object.ID).Nodup) →
    (∀ o ∈ l, mapLookup o.ID idx = none) →
    ∃ idx', validateObjectsLoop kind i l idx = .ok idx' ∧
      (∀ k, (mapLookup k idx').isSome = true ↔
        ((mapLookup k idx).isSome = true ∨ k ∈ l.map Object.ID)) := by
  intro l
  induction l with
  | nil =>
    intro i idx _ _ _
    exact ⟨idx, rfl, fun k => by simp⟩
  | cons v rest ih =>
    intro i idx hne hnd hfresh
    simp only [validateObjectsLoop]
    rw [if_neg (hne v (List.mem_cons_self v rest))]
    have hv0 : mapLookup v.ID idx = none := hfresh v (List.mem_cons_self v rest)
    rw [if_neg (by rw [hv0]; simp)]
    have hvid : (if v.Title = "" then { v with Title := titleize v.ID } else v).ID = v.ID := by
      split <;> rfl
    rw [List.map_cons, List.nodup_cons] at hnd
    have hfresh' : ∀ o ∈ rest,
        mapLookup o.ID (idx ++
          [((if v.Title = "" then { v with Title := titleize v.ID } else v).ID,
            if v.Title = "" then { v with Title := titleize v.ID } else v)]) = none := by
      intro o ho
      rw [mapLookup_append_none _ _ _ (hfresh o (List.mem_cons_of_mem v ho)),
        mapLookup_singleton, hvid]
      have hneq : v.ID ≠ o.ID := fun hEq => hnd.1 (hEq ▸ List.mem_map_of_mem Object.ID ho)
      rw [if_neg hneq]
    obtain ⟨idx', hok, hkeys⟩ := ih (i + 1) _
      (fun o ho => hne o (List.mem_cons_of_mem v ho)) hnd.2 hfresh'
    refine ⟨idx', hok, fun k => ?_⟩
    rw [hkeys k, List.map_cons, List.mem_cons]
    constructor
    · rintro (hk | hk)
      · cases hl : mapLookup k idx with
        | some w => exact Or.inl rfl
        | none =>
          rw [mapLookup_append_none _ _ _ hl, mapLookup_singleton, hvid] at hk
          by_cases he : v.ID = k
          · exact Or.inr (Or.inl he.symm)
          · rw [if_neg he] at hk
            simp at hk
      · exact Or.inr (Or.inr hk)
    · rintro (hk | hk | hk)
      · cases hl : mapLookup k idx with
        | some w => exact Or.inl (by rw [mapLookup_append_some _ _ _ _ hl]; rfl)
        | none => rw [hl] at hk; simp at hk
      · cases hl : mapLookup k idx with
        | some w => exact Or.inl (by rw [mapLookup_append_some _ _ _ _ hl]; rfl)
        | none =>
          refine Or.inl ?_
          rw [mapLookup_append_none _ _ _ hl, mapLookup_singleton, hvid, if_pos hk.symm]
          rfl
      · exact Or.inr hk

theorem validateMetricsLoop_ok :
    ∀ (l : List Metric) (i : Nat) (idx : List (String × Metric)),
    (∀ m ∈ l, MetricName.IsValid m.ID = true) → ((l.map Metric.ID).Nodup) →
    (∀ m ∈ l, mapLookup m.ID idx = none) →
    ∃ idx', validateMetricsLoop i l idx = .ok idx' ∧
      (∀ k, (mapLookup k idx').isSome = true ↔
        ((mapLookup k idx).isSome = true ∨ k ∈ l.map Metric.ID)) := by
  intro l
  induction l with
  | nil =>
    intro i idx _ _ _
    exact ⟨idx, rfl, fun k => by simp⟩
  | cons v rest ih =>
    intro i idx hval hnd hfresh
    simp only [validateMetricsLoop]
    rw [if_neg (metricName_isValid_ne_empty v.ID (hval v (List.mem_cons_self v rest)))]
    rw [if_neg (by rw [hval v (List.mem_cons_self v rest)]; simp)]
    have hvid : (if v.Title = "" then { v with Title := titleize v.ID } else v).ID = v.ID := by
      split <;> rfl
    rw [hvid]
    have hv0 : mapLookup v.ID idx = none := hfresh v (List.mem_cons_self v rest)
    rw [if_neg (by rw [hv0]; simp)]
    rw [List.map_cons, List.nodup_cons] at hnd
    have hfresh' : ∀ m ∈ rest,
        mapLookup m.ID (idx ++
          [(v.ID, if v.Title = "" then { v with Title := titleize v.ID } else v)]) = none := by
      intro m hm
      rw [mapLookup_append_none _ _ _ (hfresh m (List.mem_cons_of_mem v hm)),
        mapLookup_singleton]
      have hneq : v.ID ≠ m.ID := fun hEq => hnd.1 (hEq ▸ List.mem_map_of_mem Metric.ID hm)
      rw [if_neg hneq]
    obtain ⟨idx', hok, hkeys⟩ := ih (i + 1) _
      (fun m hm => hval m (List.mem_cons_of_mem v hm)) hnd.2 hfresh'
    refine ⟨idx', hok, fun k => ?_⟩
    rw [hkeys k, List.map_cons, List.mem_cons]
    constructor
    · rintro (hk | hk)
      · cases hl : mapLookup k idx with
        | some w => exact Or.inl rfl
        | none =>
          rw [mapLookup_append_none _ _ _ hl, mapLookup_singleton] at hk
          by_cases he : v.ID = k
          · exact Or.inr (Or.inl he.symm)
          · rw [if_neg he] at hk
            simp at hk
      · exact Or.inr (Or.inr hk)
    · rintro (hk | hk | hk)
      · cases hl : mapLookup k idx with
        | some w => exact Or.inl (by rw [mapLookup_append_some _ _ _ _ hl]; rfl)
        | none => rw [hl] at hk; simp at hk
      · cases hl : mapLookup k idx with
        | some w => exact Or.inl (by rw [mapLookup_append_some _ _ _ _ hl]; rfl)
        | none =>
          refine Or.inl ?_
          rw [mapLookup_append_none _ _ _ hl, mapLookup_singleton, if_pos hk.symm]
          rfl
      · exact Or.inr hk

theorem compileObjects_ok (compile : String → Except String Rex) (kind : String) :
    ∀ (l : List Object) (i : Nat),
    (∀ o ∈ l, (o.Match = "" ∨ ∃ r, compile o.Match = .ok r) ∧ o.NotMatch = "") →
    ∃ l', compileObjects compile kind i l = .ok l' ∧ l'.length = l.length := by
  intro l
  induction l with
  | nil => intro i _; exact ⟨[], rfl, rfl⟩
  | cons o rest ih =>
    intro i h
    obtain ⟨hM, hNM⟩ := h o (List.mem_cons_self o rest)
    have hcr : ∃ p, compileRex compile o = .ok p := by
      by_cases hM0 : o.Match = ""
      · exact ⟨(none, none), by unfold compileRex compilePattern; rw [if_pos hM0, hNM]; simp⟩
      · rcases hM with hM | ⟨r, hr⟩
        · exact absurd hM hM0
        · exact ⟨(some r, none),
            by unfold compileRex compilePattern; rw [if_neg hM0, hr, hNM]; simp⟩
    obtain ⟨p, hp⟩ := hcr
    obtain ⟨rest', hrest, hlen⟩ := ih (i + 1) (fun o' ho' => h o' (List.mem_cons_of_mem o ho'))
    refine ⟨{ o with matchRex := p.1, notMatchRex := p.2 } :: rest', ?_, by simp [hlen]⟩
    simp only [compileObjects]
    rw [hp, hrest]

theorem validateFunctions_ok_of_loop (c : Config) (idx : List (String × Object))
    (h : validateObjectsLoop "functions" 0 c.Functions [] = .ok idx) :
    c.validateFunctions = .ok { c with functionIndex := idx } := by
  unfold Config.validateFunctions
  rw [h]
  rfl

theorem validateContexts_ok_of_loop (c : Config) (idx : List (String × Object))
    (h : validateObjectsLoop "contexts" 0 c.Contexts [] = .ok idx) :
    c.validateContexts = .ok { c with contextIndex := idx } := by
  unfold Config.validateContexts
  rw [h]
  rfl

theorem validateVersions_ok_of_loop (c : Config) (idx : List (String × Object))
    (h : validateObjectsLoop "versions" 0 c.Versions [] = .ok idx) :
    c.validateVersions = .ok { c with versionIndex := idx } := by
  unfold Config.validateVersions
  rw [h]
  rfl

theorem validateMetrics_ok_of_loop (c : Config) (idx : List (String × Metric))
    (h : validateMetricsLoop 0 c.Metrics [] = .ok idx) :
    c.validateMetrics = .ok { c with metricIndex := idx } := by
  unfold Config.validateMetrics
  rw [h]
  rfl

theorem validateCategories_ok_of_loop (c : Config) (cats' : List Category)
    (h : Config.validateCategoriesLoop c 0 c.Categories = .ok cats') :
    c.validateCategories = .ok { c with Categories := cats' } := by
  unfold Config.validateCategories
  rw [h]
  rfl

theorem validateRegexps_ok_of (compile : String → Except String Rex) (c : Config)
    (fns ctxs vers : List Object) (fls : List File)
    (h1 : compileObjects compile "function" 0 c.Functions = .ok fns)
    (h2 : compileObjects compile "context" 0 c.Contexts = .ok ctxs)
    (h3 : compileObjects compile "version" 0 c.Versions = .ok vers)
    (h4 : compileFiles compile c 0 c.Files = .ok fls) :
    c.validateRegexps compile =
      .ok { c with Functions := fns, Contexts := ctxs, Versions := vers, Files := fls } := by
  unfold Config.validateRegexps
  rw [h1]
  unfold validateRegexpsContexts
  rw [h2]
  unfold validateRegexpsVersions
  rw [h3]
  unfold validateRegexpsFiles
  rw [h4]

theorem list_if_isEmpty_ne {α : Type} (d l : List α) (h : l ≠ []) :
    (if l.isEmpty = true then d else l) = l := by
  cases l with
  | nil => exact absurd rfl h
  | cons a t => rfl

theorem generatedMetric_ids (ms : List MetricName) :
    (ms.map generatedMetric).map Metric.ID = ms := by
  induction ms with
  | nil => rfl
  | cons m rest ih => simp [generatedMetric_id, ih]

/-- **C9 (counterexample).** `Generate` followed by `Load` does **not**
succeed for every input: with an empty metric list the generated catch-all
category has zero included metrics, and `Load` rejects it, so the claim's
unconditional round-trip fails. -/
theorem claim9_counterexample_empty_metrics :
    functionCount (roundTrip compileAlways inputC9bad) = none := rfl

/-- **C9 (amended).** Provided the supplied metric ids are a non-empty
duplicate-free list of valid metric names, every record name normalizes to a
non-empty id, and the compiler accepts every `QuoteMeta` literal pattern
(Go's `regexp.Compile` always does), `Generate` followed by serialization
and `Load` succeeds, and the resulting rule store's function count equals
the number of distinct normalized ids of the supplied record names
(normalization per `benchNameToID`: strip the `Benchmark` prefix and one
leading underscore, strip a trailing numeric suffix, map `/` and `_` to
`-`, lowercase; duplicates merged first-occurrence-wins). -/
theorem claim9_generate_load_roundtrip (compile : String → Except String Rex)
    (input : GenerateInput)
    (hm : input.Metrics ≠ [])
    (hval : ∀ m ∈ input.Metrics, MetricName.IsValid m = true)
    (hnd : input.Metrics.Nodup)
    (hid : ∀ n ∈ input.Functions, benchNameToID n ≠ "")
    (hc : ∀ n ∈ input.Functions, ∃ r, compile (quoteMeta n) = .ok r) :
    functionCount (roundTrip compile input) =
      some ((input.Functions.map benchNameToID).dedup.length) := by
  set M : Config := mergeDoc defaultConfigDoc (encodeDoc (Generate input)) with hMdef
  set gen : List Object := genFunctions input.Functions [] with hgendef
  set F : List Object := gen.map stripObject with hFdef
  set MM : List Metric := input.Metrics.map generatedMetric with hMMdef
  have hMfun : M.Functions = F := list_if_isEmpty F
  have hMmet : M.Metrics = MM :=
    list_if_isEmpty_ne defaultConfigDoc.Metrics MM
      (fun h0 => hm (List.map_eq_nil_iff.mp h0))
  have hFmem : ∀ o ∈ F, ∃ n, n ∈ input.Functions ∧ o.ID = benchNameToID n ∧
      o.Match = quoteMeta n ∧ o.NotMatch = "" := by
    intro o ho
    rw [hFdef, List.mem_map] at ho
    obtain ⟨f, hf, hfo⟩ := ho
    obtain ⟨n, hn, h1, h2, h3⟩ := genFunctions_mem input.Functions [] f hf
    exact ⟨n, hn, by rw [← hfo]; exact h1, by rw [← hfo]; exact h2, by rw [← hfo]; exact h3⟩
  have hFids : F.map Object.ID = gen.map Object.ID := by
    rw [hFdef, List.map_map]
    rfl
  have hgnd := genFunctions_ids_nodup input.Functions []
  have hFnd : (F.map Object.ID).Nodup := by
    rw [hFids, hgendef]
    exact hgnd.1
  have hFne : ∀ o ∈ F, o.ID ≠ "" := by
    intro o ho
    obtain ⟨n, hn, h1, _, _⟩ := hFmem o ho
    rw [h1]
    exact hid n hn
  obtain ⟨idxF, hloopF, hkeysF⟩ :=
    validateObjectsLoop_ok "functions" F 0 [] hFne hFnd (fun o _ => rfl)
  have hMMval : ∀ m ∈ MM, MetricName.IsValid m.ID = true := by
    intro m hmem
    rw [hMMdef, List.mem_map] at hmem
    obtain ⟨n, hn, hmn⟩ := hmem
    rw [← hmn, generatedMetric_id]
    exact hval n hn
  have hMMids : MM.map Metric.ID = input.Metrics := generatedMetric_ids input.Metrics
  have hMMnd : (MM.map Metric.ID).Nodup := by
    rw [hMMids]
    exact hnd
  obtain ⟨idxM, hloopM, hkeysM⟩ :=
    validateMetricsLoop_ok MM 0 [] hMMval hMMnd (fun m _ => rfl)
  have h1 : M.validateFunctions = .ok { M with functionIndex := idxF } :=
    validateFunctions_ok_of_loop M idxF (by rw [hMfun]; exact hloopF)
  have h2 := validateContexts_ok_of_loop { M with functionIndex := idxF } [] rfl
  have h3 := validateVersions_ok_of_loop
    { M with functionIndex := idxF, contextIndex := [] } [] rfl
  have h4 := validateMetrics_ok_of_loop
    { M with functionIndex := idxF, contextIndex := [], versionIndex := [] } idxM
    (by show validateMetricsLoop 0 M.Metrics [] = .ok idxM; rw [hMmet]; exact hloopM)
  set c4 : Config := { M with functionIndex := idxF, contextIndex := [], versionIndex := [], metricIndex := idxM } with hc4def
  have hTne : ¬(genCategory input).Title = "" := by
    rw [show (genCategory input).Title = "All Benchmarks (\x7bmetric\x7d)" from rfl]
    decide
  have hIDne : ¬(genCategory input).ID = "" := by
    rw [show (genCategory input).ID = "all" from rfl]
    decide
  have htitle : titledCategory (genCategory input) = genCategory input := by
    unfold titledCategory
    rw [if_neg hTne]
  have hmissF : firstMissingRef c4.functionIndex (genCategory input).Includes.Functions
      = none := by
    apply firstMissingRef_none
    intro r hr
    exact (hkeysF r).mpr (Or.inr (by rw [hFids]; exact hr))
  have hmissM : firstMissingRef c4.metricIndex (genCategory input).Includes.Metrics
      = none := by
    apply firstMissingRef_none
    intro r hr
    exact (hkeysM r).mpr (Or.inr hr)
  have hlenM : ¬((genCategory input).Includes.Metrics.length = 0) := by
    show ¬(((input.Metrics.map generatedMetric).map Metric.ID).length = 0)
    rw [List.length_map, List.length_map]
    intro h0
    exact hm (List.length_eq_zero.mp h0)
  have hcatok : ∃ vout, c4.validateCategory (genCategory input) 0 = .ok vout := by
    unfold Config.validateCategory
    rw [if_neg hIDne, htitle]
    unfold validateCategoryFunctions
    rw [hmissF]
    unfold validateCategoryContexts
    rw [show firstMissingRef c4.contextIndex (genCategory input).Includes.Contexts = none
      from rfl]
    unfold validateCategoryVersions
    rw [show firstMissingRef c4.versionIndex (genCategory input).Includes.Versions = none
      from rfl]
    unfold validateCategoryMetrics
    rw [hmissM, if_neg hlenM]
    exact ⟨_, rfl⟩
  obtain ⟨vout, hcat⟩ := hcatok
  have hloopC : Config.validateCategoriesLoop c4 0 c4.Categories = .ok [vout] := by
    show Config.validateCategoriesLoop c4 0 [genCategory input] = .ok [vout]
    simp only [Config.validateCategoriesLoop]
    rw [hcat]
  have h5 : c4.validateCategories = .ok { c4 with Categories := [vout] } :=
    validateCategories_ok_of_loop c4 [vout] hloopC
  set c5 : Config := { c4 with Categories := [vout] } with hc5def
  obtain ⟨fns, hfns, hfnslen⟩ := compileObjects_ok compile "function" F 0 (by
    intro o ho
    obtain ⟨n, hn, _, h2', h3'⟩ := hFmem o ho
    refine ⟨Or.inr ?_, h3'⟩
    obtain ⟨r, hr⟩ := hc n hn
    exact ⟨r, by rw [h2']; exact hr⟩)
  have h6fns : compileObjects compile "function" 0 c5.Functions = .ok fns := by
    show compileObjects compile "function" 0 M.Functions = .ok fns
    rw [hMfun]
    exact hfns
  have h6 : c5.validateRegexps compile =
      .ok { c5 with Functions := fns, Contexts := [], Versions := [], Files := [] } :=
    validateRegexps_ok_of compile c5 fns [] [] [] h6fns rfl rfl rfl
  have hload : load compile M =
      .ok { c5 with Functions := fns, Contexts := [], Versions := [], Files := [] } := by
    rw [load_fun_ok compile M _ h1, loadFromContexts_ok compile _ _ h2,
      loadFromVersions_ok compile _ _ h3, loadFromMetrics_ok compile _ _ h4,
      loadFromCategories_ok compile _ _ h5]
    exact h6
  have hload' : roundTrip compile input =
      .ok { c5 with Functions := fns, Contexts := [], Versions := [], Files := [] } := hload
  rw [hload']
  show some fns.length = some ((input.Functions.map benchNameToID).dedup.length)
  rw [hfnslen, hFdef, List.length_map, hgendef, genFunctions_length input.Functions []]
  rw [List.toFinset_nil, Finset.sdiff_empty, List.card_toFinset]

/-- **C9 (witness).** The amended round trip at a concrete input: the three
names yield two distinct normalized ids (`foo` twice, `foo-bar`), and the
loaded rule store has exactly two functions. -/
theorem claim9_witness :
    functionCount (roundTrip compileC9 inputC9) =
      some ((inputC9.Functions.map benchNameToID).dedup.length) :=
  claim9_generate_load_roundtrip compileC9 inputC9 (by decide) (by decide) (by decide)
    (by decide) (fun n _ => ⟨⟨fun t => t == quoteMeta n⟩, rfl⟩)

end Benchviz
